import Mathlib

set_option maxHeartbeats 1000000
set_option maxRecDepth 100000

/-
Verification development for the rusylyzer keyboard-layout optimizer.

The Rust sources under verification are src/src/generate.rs,
src/src/analyze.rs and src/oxeylyzer-core/src/language_data.rs.  Pure
functions are translated into Lean functions; f64 arithmetic is modelled
over the rationals, so the identities that hold only up to rounding in
the floating program hold exactly here; fallible operations return
Option.  Character ids are natural numbers.  A handful of helpers live
in files of the repository that are not part of src/ (layout.rs,
utility.rs, trigram_patterns.rs); those are modelled from the spec and
carry a doc comment saying so.
-/

/-- Association-list lookup returning the stored frequency, or 0 when the
key is absent.  This mirrors the get(..).unwrap_or(&0.0) pattern used by
every frequency lookup in generate.rs and analyze.rs. -/
def getQ {α : Type} [DecidableEq α] : List (α × ℚ) → α → ℚ
  | [], _ => 0
  | (k, v) :: t, c => if c = k then v else getQ t c

/-- Key-membership test for a frequency table. -/
def hasKey {α : Type} [DecidableEq α] (tbl : List (α × ℚ)) (k : α) : Bool :=
  tbl.any (fun p => decide (p.1 = k))

/-- Language model of language_data.rs: frequency tables over character ids.
The tables are association lists, so an absent key reads as frequency 0
through getQ, exactly like the FxHashMap get(..).unwrap_or(&0.0) calls. -/
structure LanguageData where
  characters : List (ℕ × ℚ)
  bigrams : List ((ℕ × ℕ) × ℚ)
  skipgrams : List ((ℕ × ℕ) × ℚ)
  skipgrams2 : List ((ℕ × ℕ) × ℚ)
  skipgrams3 : List ((ℕ × ℕ) × ℚ)
  trigrams : List ((ℕ × ℕ × ℕ) × ℚ)

/-- The twelve trigram patterns of trigram_patterns.rs. -/
inductive TrigramPattern where
  | Alternate
  | AlternateSfs
  | Inroll
  | Outroll
  | Onehand
  | Redirect
  | BadRedirect
  | Sfb
  | BadSfb
  | Sft
  | Other
  | Invalid
deriving DecidableEq, Repr

/-- Per-finger usage thresholds from the weights file. -/
structure MaxFingerUse where
  pinky : ℚ
  ring : ℚ
  middle : ℚ
  index : ℚ
  penalty : ℚ

/-- The weight fields of weights.rs that the scorer reads. -/
structure Weights where
  inrolls : ℚ
  outrolls : ℚ
  onehands : ℚ
  alternates : ℚ
  alternatesSfs : ℚ
  redirects : ℚ
  badRedirects : ℚ
  fspeed : ℚ
  scissors : ℚ
  dsfbRat : ℚ
  dsfbRat2 : ℚ
  dsfbRat3 : ℚ
  maxFingerUse : MaxFingerUse

/-- Modelled from the spec: layout.rs is not under src/.  Spec section 4.3
describes the layout as a 30-slot matrix of character ids plus a reverse
index from id to position.  Both sides are lists indexed positionally,
read through getD with default 0, matching array indexing in Rust. -/
structure FastLayout where
  matrix : List ℕ
  charIndices : List ℕ
deriving DecidableEq, Repr

/-- Character at a position (layout.c / layout.cu in the source). -/
def FastLayout.c (l : FastLayout) (i : ℕ) : ℕ := l.matrix.getD i 0

/-- Position of a character through the reverse index. -/
def FastLayout.pos (l : FastLayout) (c : ℕ) : ℕ := l.charIndices.getD c 0

/-- Modelled from the spec: swap_pair_no_bounds of layout.rs (not under
src/).  Spec section 4.3: exchange matrix entries i and j and update the
reverse index entries of the two exchanged characters. -/
def swapPairNoBounds (l : FastLayout) (s : ℕ × ℕ) : FastLayout :=
  let c1 := l.c s.1
  let c2 := l.c s.2
  { matrix := (l.matrix.set s.1 c2).set s.2 c1,
    charIndices := (l.charIndices.set c1 s.2).set c2 s.1 }

/-- Modelled from the spec: POSSIBLE_SWAPS of utility.rs (not under src/)
enumerates all 435 unordered pairs of the 30 positions. -/
def possibleSwaps : List (ℕ × ℕ) :=
  (List.range 30).flatMap
    (fun i => ((List.range 30).filter (fun j => decide (i < j))).map (fun j => (i, j)))

/-- The fields of LayoutGeneration (generate.rs) that scoring and caching
read.  The fspeedVals, effortMap and scissorIndices tables are produced by
utility.rs which is not under src/, so they are carried as data here;
classify models the trigram pattern table of trigram_patterns.rs (also not
under src/) as a function of the three key positions, which is the
interface the spec section 4.5 gives it. -/
structure LayoutGeneration where
  data : LanguageData
  possibleChars : List ℕ
  precision : ℕ
  fspeedVals : List ((ℕ × ℕ) × ℚ)
  effortMap : ℕ → ℚ
  scissorIndices : List (ℕ × ℕ)
  weights : Weights
  classify : ℕ → ℕ → ℕ → TrigramPattern

/-- The i_to_col table written literally in the LayoutGeneration
constructor in generate.rs. -/
def iToColList : List ℕ :=
  [0, 1, 2, 3, 3, 4, 4, 5, 6, 7,
   0, 1, 2, 3, 3, 4, 4, 5, 6, 7,
   0, 1, 2, 3, 3, 4, 4, 5, 6, 7]

/-- Column of a position; out-of-range positions read as the impossible
column 8. -/
def iToCol (i : ℕ) : ℕ := iToColList.getD i 8

/-- Modelled from the spec: PosPair.affects_scissor of utility.rs (not
under src/) is a membership test of the swapped positions in the scissor
index list (spec section 4.7). -/
def affectsScissor (g : LayoutGeneration) (s : ℕ × ℕ) : Bool :=
  g.scissorIndices.any (fun q =>
    decide (q.1 = s.1) || decide (q.1 = s.2) || decide (q.2 = s.1) || decide (q.2 = s.2))

/-- Sum of f over 0, 1, ..., n-1. -/
def listSum (n : ℕ) (f : ℕ → ℚ) : ℚ := ((List.range n).map f).sum

/-- char_effort of generate.rs. -/
def charEffort (g : LayoutGeneration) (l : FastLayout) (i : ℕ) : ℚ :=
  getQ g.data.characters (l.c i) * g.effortMap i

/-- The positions whose characters col_usage of generate.rs sums for a
column, following its match on the column number. -/
def colPositions (col : ℕ) : List ℕ :=
  if col ≤ 2 then [col, col + 10, col + 20]
  else if col ≤ 4 then
    let c := (col - 3) * 2 + 3
    [c, c + 10, c + 20, c + 1, c + 11, c + 21]
  else if col ≤ 7 then [col + 2, col + 12, col + 22]
  else []

/-- col_usage of generate.rs. -/
def colUsage (g : LayoutGeneration) (l : FastLayout) (col : ℕ) : ℚ :=
  let res := ((colPositions col).map (fun i => getQ g.data.characters (l.c i))).sum
  g.weights.maxFingerUse.penalty *
    (if col = 0 ∨ col = 7 then max (res - g.weights.maxFingerUse.pinky) 0
     else if col = 1 ∨ col = 6 then max (res - g.weights.maxFingerUse.ring) 0
     else if col = 2 ∨ col = 5 then max (res - g.weights.maxFingerUse.middle) 0
     else if col = 3 ∨ col = 4 then max (res - g.weights.maxFingerUse.index) 0
     else 0)

/-- col_to_start_len of generate.rs. -/
def colToStartLen (col : ℕ) : ℕ × ℕ :=
  if col ≤ 2 then (col * 3, 3)
  else if col ≤ 4 then (18 + (col - 3) * 15, 15)
  else if col ≤ 7 then ((col - 2) * 3, 3)
  else (0, 0)

/-- The slice of fspeed_vals that col_fspeed of generate.rs walks for a
column. -/
def fspeedSlice (g : LayoutGeneration) (col : ℕ) : List ((ℕ × ℕ) × ℚ) :=
  ((g.fspeedVals.drop (colToStartLen col).1).take (colToStartLen col).2)

/-- col_fspeed of generate.rs. -/
def colFspeed (g : LayoutGeneration) (l : FastLayout) (col : ℕ) : ℚ :=
  ((fspeedSlice g col).map (fun pd =>
    let c1 := l.c pd.1.1
    let c2 := l.c pd.1.2
    let dist := pd.2
    getQ g.data.bigrams (c1, c2) * dist + getQ g.data.bigrams (c2, c1) * dist
      + getQ g.data.skipgrams (c1, c2) * dist * g.weights.dsfbRat
      + getQ g.data.skipgrams (c2, c1) * dist * g.weights.dsfbRat
      + getQ g.data.skipgrams2 (c1, c2) * dist * g.weights.dsfbRat2
      + getQ g.data.skipgrams2 (c2, c1) * dist * g.weights.dsfbRat2
      + getQ g.data.skipgrams3 (c1, c2) * dist * g.weights.dsfbRat3
      + getQ g.data.skipgrams3 (c2, c1) * dist * g.weights.dsfbRat3)).sum
    * g.weights.fspeed

/-- scissor_score of generate.rs. -/
def scissorScore (g : LayoutGeneration) (l : FastLayout) : ℚ :=
  ((g.scissorIndices.map (fun p =>
    getQ g.data.bigrams (l.c p.1, l.c p.2) + getQ g.data.bigrams (l.c p.2, l.c p.1))).sum)
    * g.weights.scissors

/-- Membership of a character in a trigram, as the contains call of
per_char_trigrams and trigram_char_score in generate.rs. -/
def trigramContains (c : ℕ) (t : ℕ × ℕ × ℕ) : Bool :=
  decide (t.1 = c) || decide (t.2.1 = c) || decide (t.2.2 = c)

/-- get_trigram_pattern: the classifier applied to the positions of the
three trigram characters through the reverse index (layout.rs interface,
spec sections 4.3 and 4.5). -/
def getTrigramPattern (g : LayoutGeneration) (l : FastLayout) (t : ℕ × ℕ × ℕ) : TrigramPattern :=
  g.classify (l.pos t.1) (l.pos t.2.1) (l.pos t.2.2)

/-- TrigramStats of generate.rs. -/
structure TrigramStats where
  alternates : ℚ
  alternatesSfs : ℚ
  inrolls : ℚ
  outrolls : ℚ
  onehands : ℚ
  redirects : ℚ
  badRedirects : ℚ
  sfbs : ℚ
  badSfbs : ℚ
  sfts : ℚ
  other : ℚ
  invalid : ℚ
deriving DecidableEq, Repr

/-- The all-zero TrigramStats, the Default::default() of the source. -/
def statsZero : TrigramStats := ⟨0, 0, 0, 0, 0, 0, 0, 0, 0, 0, 0, 0⟩

/-- One accumulation step of trigram_score_iter in generate.rs: only the
seven weighted patterns are accumulated, every other pattern falls into
the wildcard arm and leaves the stats unchanged. -/
def iterStep (g : LayoutGeneration) (l : FastLayout) (st : TrigramStats)
    (tf : (ℕ × ℕ × ℕ) × ℚ) : TrigramStats :=
  match getTrigramPattern g l tf.1 with
  | TrigramPattern.Alternate => { st with alternates := st.alternates + tf.2 }
  | TrigramPattern.AlternateSfs => { st with alternatesSfs := st.alternatesSfs + tf.2 }
  | TrigramPattern.Inroll => { st with inrolls := st.inrolls + tf.2 }
  | TrigramPattern.Outroll => { st with outrolls := st.outrolls + tf.2 }
  | TrigramPattern.Onehand => { st with onehands := st.onehands + tf.2 }
  | TrigramPattern.Redirect => { st with redirects := st.redirects + tf.2 }
  | TrigramPattern.BadRedirect => { st with badRedirects := st.badRedirects + tf.2 }
  | _ => st

/-- trigram_score_iter of generate.rs: accumulate the stats and combine
them with the configured weights. -/
def trigramScoreIter (g : LayoutGeneration) (l : FastLayout)
    (ts : List ((ℕ × ℕ × ℕ) × ℚ)) : ℚ :=
  let fr := ts.foldl (iterStep g l) statsZero
  g.weights.inrolls * fr.inrolls + g.weights.outrolls * fr.outrolls
    + g.weights.onehands * fr.onehands + g.weights.alternates * fr.alternates
    + g.weights.alternatesSfs * fr.alternatesSfs
    - g.weights.redirects * fr.redirects - g.weights.badRedirects * fr.badRedirects

/-- The signed weight a single trigram contributes through
trigram_score_iter, by pattern. -/
def patWeight (g : LayoutGeneration) : TrigramPattern → ℚ
  | TrigramPattern.Alternate => g.weights.alternates
  | TrigramPattern.AlternateSfs => g.weights.alternatesSfs
  | TrigramPattern.Inroll => g.weights.inrolls
  | TrigramPattern.Outroll => g.weights.outrolls
  | TrigramPattern.Onehand => g.weights.onehands
  | TrigramPattern.Redirect => -g.weights.redirects
  | TrigramPattern.BadRedirect => -g.weights.badRedirects
  | _ => 0

/-- per_char_trigrams of generate.rs: the constructor truncates the
trigram list to trigram_precision entries and stores, for every character
of the language, the sub-list of truncated trigrams containing it.  The
lookup returns none exactly for characters outside the possible set. -/
def perCharTrigrams (g : LayoutGeneration) (c : ℕ) : Option (List ((ℕ × ℕ × ℕ) × ℚ)) :=
  if c ∈ g.possibleChars then
    some ((g.data.trigrams.take g.precision).filter (fun tf => trigramContains c tf.1))
  else none

/-- trigram_char_score of generate.rs: iterate the larger per-char list in
full and the smaller one filtered to the trigrams not already counted. -/
def trigramCharScore (g : LayoutGeneration) (l : FastLayout) (s : ℕ × ℕ) : ℚ :=
  let c1 := l.c s.1
  let c2 := l.c s.2
  match perCharTrigrams g c1, perCharTrigrams g c2 with
  | none, none => 0
  | some v, none => trigramScoreIter g l v
  | none, some v => trigramScoreIter g l v
  | some v1, some v2 =>
    if v2.length ≤ v1.length then
      trigramScoreIter g l (v1 ++ v2.filter (fun tf => !trigramContains c1 tf.1))
    else
      trigramScoreIter g l (v2 ++ v1.filter (fun tf => !trigramContains c2 tf.1))

/-- score of generate.rs: trigram reward minus effort, finger speed and
usage, and scissors, with the trigram reward taken over the full trigram
list. -/
def score (g : LayoutGeneration) (l : FastLayout) : ℚ :=
  let effort := listSum l.matrix.length (charEffort g l)
  let fspeedUsage := listSum 8 (fun col => colUsage g l col + colFspeed g l col)
  let scissors := scissorScore g l
  let trigramScore := trigramScoreIter g l g.data.trigrams
  trigramScore - effort - fspeedUsage - scissors

/-- LayoutCache of generate.rs.  The per-position and per-column arrays
are lists read through getD with default 0. -/
structure LayoutCache where
  effort : List ℚ
  effortTotal : ℚ
  scissors : ℚ
  usage : List ℚ
  usageTotal : ℚ
  fspeed : List ℚ
  fspeedTotal : ℚ
  trigramsTotal : ℚ
deriving DecidableEq, Repr

/-- LayoutCache::total_score of generate.rs. -/
def LayoutCache.totalScore (c : LayoutCache) : ℚ :=
  c.trigramsTotal - c.scissors - c.effortTotal - c.usageTotal - c.fspeedTotal

/-- initialize_cache of generate.rs: every field populated from a full
recomputation, with the trigram total taken over the full trigram list. -/
def initCache (g : LayoutGeneration) (l : FastLayout) : LayoutCache :=
  let eff := (List.range 30).map (charEffort g l)
  let us := (List.range 8).map (colUsage g l)
  let fs := (List.range 8).map (colFspeed g l)
  { effort := eff, effortTotal := eff.sum,
    scissors := scissorScore g l,
    usage := us, usageTotal := us.sum,
    fspeed := fs, fspeedTotal := fs.sum,
    trigramsTotal := trigramScoreIter g l g.data.trigrams }

/-- score_swap_cached of generate.rs, written purely: the source swaps the
layout, reads the changed aspects against the cache, swaps back and
returns the would-be total. -/
def scoreSwapCached (g : LayoutGeneration) (l : FastLayout) (s : ℕ × ℕ)
    (cache : LayoutCache) : ℚ :=
  let trigramsStart := trigramCharScore g l s
  let l2 := swapPairNoBounds l s
  let col1 := iToCol s.1
  let col2 := iToCol s.2
  let fspeedScore :=
    if col1 = col2 then cache.fspeedTotal - cache.fspeed.getD col1 0 + colFspeed g l2 col1
    else cache.fspeedTotal - cache.fspeed.getD col1 0 - cache.fspeed.getD col2 0
      + colFspeed g l2 col1 + colFspeed g l2 col2
  let usageScore :=
    if col1 = col2 then cache.usageTotal - cache.usage.getD col1 0 + colUsage g l2 col1
    else cache.usageTotal - cache.usage.getD col1 0 - cache.usage.getD col2 0
      + colUsage g l2 col1 + colUsage g l2 col2
  let effortScore := cache.effortTotal - cache.effort.getD s.1 0 - cache.effort.getD s.2 0
    + charEffort g l2 s.1 + charEffort g l2 s.2
  let trigramsEnd := trigramCharScore g l2 s
  let trigramsScore := cache.trigramsTotal - trigramsStart + trigramsEnd
  let scissorsScore := if affectsScissor g s then scissorScore g l2 else cache.scissors
  trigramsScore - scissorsScore - effortScore - usageScore - fspeedScore

/-- accept_swap of generate.rs: the same computation as score_swap_cached
but committing both the layout mutation and the cache updates. -/
def acceptSwap (g : LayoutGeneration) (l : FastLayout) (s : ℕ × ℕ)
    (cache : LayoutCache) : FastLayout × LayoutCache :=
  let trigramsStart := trigramCharScore g l s
  let l2 := swapPairNoBounds l s
  let col1 := iToCol s.1
  let col2 := iToCol s.2
  let fsp :=
    if col1 = col2 then
      let f := colFspeed g l2 col1
      (cache.fspeedTotal - cache.fspeed.getD col1 0 + f, cache.fspeed.set col1 f)
    else
      let f1 := colFspeed g l2 col1
      let f2 := colFspeed g l2 col2
      (cache.fspeedTotal - cache.fspeed.getD col1 0 - cache.fspeed.getD col2 0 + f1 + f2,
       (cache.fspeed.set col1 f1).set col2 f2)
  let usg :=
    if col1 = col2 then
      let u := colUsage g l2 col1
      (cache.usageTotal - cache.usage.getD col1 0 + u, cache.usage.set col1 u)
    else
      let u1 := colUsage g l2 col1
      let u2 := colUsage g l2 col2
      (cache.usageTotal - cache.usage.getD col1 0 - cache.usage.getD col2 0 + u1 + u2,
       (cache.usage.set col1 u1).set col2 u2)
  let e1 := charEffort g l2 s.1
  let e2 := charEffort g l2 s.2
  let effortTotal2 := cache.effortTotal - cache.effort.getD s.1 0 - cache.effort.getD s.2 0
    + e1 + e2
  let effortArr2 := (cache.effort.set s.1 e1).set s.2 e2
  let trigramsEnd := trigramCharScore g l2 s
  let trigramsTotal2 := cache.trigramsTotal - trigramsStart + trigramsEnd
  let scissors2 := if affectsScissor g s then scissorScore g l2 else cache.scissors
  (l2,
   { effort := effortArr2, effortTotal := effortTotal2,
     scissors := scissors2,
     usage := usg.2, usageTotal := usg.1,
     fspeed := fsp.2, fspeedTotal := fsp.1,
     trigramsTotal := trigramsTotal2 })

/-- bigram_percent of generate.rs.  Every recognised bigram type name
selects the skipgrams table; an unrecognised name panics in the source,
modelled as none. -/
def bigramPercent (g : LayoutGeneration) (l : FastLayout) (bigramType : String) : Option ℚ :=
  let dataOpt : Option (List ((ℕ × ℕ) × ℚ)) :=
    if bigramType = "bigram" ∨ bigramType = "bigrams" ∨ bigramType = "sfb"
        ∨ bigramType = "sfbs" then
      some g.data.skipgrams
    else if bigramType = "skipgram2" ∨ bigramType = "skipgrams2" ∨ bigramType = "dsfb2"
        ∨ bigramType = "dsfbs2" then
      some g.data.skipgrams
    else if bigramType = "skipgram3" ∨ bigramType = "skipgrams3" ∨ bigramType = "dsfb3"
        ∨ bigramType = "dsfbs3" then
      some g.data.skipgrams
    else none
  dataOpt.map (fun data =>
    (g.fspeedVals.map (fun pd =>
      getQ data (l.c pd.1.1, l.c pd.1.2) + getQ data (l.c pd.1.2, l.c pd.1.1))).sum)

/-- Modelled from the spec: section 9 states that bigram_percent should
select the bigrams table for the sfb names, skipgrams2 for the dsfb2
names and skipgrams3 for the dsfb3 names.  This definition follows the
spec words, for comparison against bigramPercent, which is translated
from the source. -/
def bigramPercentSpec (g : LayoutGeneration) (l : FastLayout) (bigramType : String) : Option ℚ :=
  let dataOpt : Option (List ((ℕ × ℕ) × ℚ)) :=
    if bigramType = "bigram" ∨ bigramType = "bigrams" ∨ bigramType = "sfb"
        ∨ bigramType = "sfbs" then
      some g.data.bigrams
    else if bigramType = "skipgram2" ∨ bigramType = "skipgrams2" ∨ bigramType = "dsfb2"
        ∨ bigramType = "dsfbs2" then
      some g.data.skipgrams2
    else if bigramType = "skipgram3" ∨ bigramType = "skipgrams3" ∨ bigramType = "dsfb3"
        ∨ bigramType = "dsfbs3" then
      some g.data.skipgrams3
    else none
  dataOpt.map (fun data =>
    (g.fspeedVals.map (fun pd =>
      getQ data (l.c pd.1.1, l.c pd.1.2) + getQ data (l.c pd.1.2, l.c pd.1.1))).sum)

/-- One accumulation step of trigram_stats in generate.rs, which handles
all twelve patterns. -/
def iterStepFull (g : LayoutGeneration) (l : FastLayout) (st : TrigramStats)
    (tf : (ℕ × ℕ × ℕ) × ℚ) : TrigramStats :=
  match getTrigramPattern g l tf.1 with
  | TrigramPattern.Alternate => { st with alternates := st.alternates + tf.2 }
  | TrigramPattern.AlternateSfs => { st with alternatesSfs := st.alternatesSfs + tf.2 }
  | TrigramPattern.Inroll => { st with inrolls := st.inrolls + tf.2 }
  | TrigramPattern.Outroll => { st with outrolls := st.outrolls + tf.2 }
  | TrigramPattern.Onehand => { st with onehands := st.onehands + tf.2 }
  | TrigramPattern.Redirect => { st with redirects := st.redirects + tf.2 }
  | TrigramPattern.BadRedirect => { st with badRedirects := st.badRedirects + tf.2 }
  | TrigramPattern.Sfb => { st with sfbs := st.sfbs + tf.2 }
  | TrigramPattern.BadSfb => { st with badSfbs := st.badSfbs + tf.2 }
  | TrigramPattern.Sft => { st with sfts := st.sfts + tf.2 }
  | TrigramPattern.Other => { st with other := st.other + tf.2 }
  | TrigramPattern.Invalid => { st with invalid := st.invalid + tf.2 }

/-- trigram_stats of generate.rs over the first prec trigrams. -/
def trigramStatsFn (g : LayoutGeneration) (l : FastLayout) (prec : ℕ) : TrigramStats :=
  (g.data.trigrams.take prec).foldl (iterStepFull g l) statsZero

/-- LayoutStats of generate.rs. -/
structure LayoutStats where
  sfb : ℚ
  dsfb : ℚ
  scissors : ℚ
  trigramStats : TrigramStats
  fspeed : ℚ
  fingerSpeed : List ℚ
deriving DecidableEq, Repr

/-- get_layout_stats of generate.rs.  It asks bigram_percent for the
names sfbs and skipgrams; the latter is not matched by any arm of
bigram_percent, so the source panics there, modelled as none. -/
def getLayoutStats (g : LayoutGeneration) (l : FastLayout) : Option LayoutStats :=
  match bigramPercent g l "sfbs", bigramPercent g l "skipgrams" with
  | some sfb, some dsfb =>
    let cache := initCache g l
    some { sfb := sfb, dsfb := dsfb,
           scissors := scissorScore g l / g.weights.scissors,
           trigramStats := trigramStatsFn g l g.data.trigrams.length,
           fspeed := cache.fspeedTotal,
           fingerSpeed := cache.fspeed }
  | _, _ => none

/-- get_trigram_data of language_data.rs: keep an input trigram exactly
when its first two ids differ and its last two ids differ, preserving
order. -/
def getTrigramData : List ((ℕ × ℕ × ℕ) × ℚ) → List ((ℕ × ℕ × ℕ) × ℚ)
  | [] => []
  | tf :: rest =>
    if tf.1.1 ≠ tf.1.2.1 ∧ tf.1.2.1 ≠ tf.1.2.2 then tf :: getTrigramData rest
    else getTrigramData rest

/-- Rational stand-in for f64::MIN, the smallest finite double. -/
def f64Min : ℚ := -((2 ^ 53 - 1) * 2 ^ 971)

/-- best_swap_cached of generate.rs: fold over the candidate swaps keeping
the first swap whose projected score strictly exceeds the running best,
which starts from the given score or f64::MIN / 2. -/
def bestSwapCached (g : LayoutGeneration) (l : FastLayout) (cache : LayoutCache)
    (currentBestScore : Option ℚ) (possible : List (ℕ × ℕ)) : Option (ℕ × ℕ) × ℚ :=
  possible.foldl (fun acc s =>
    let sc := scoreSwapCached g l s cache
    if acc.2 < sc then (some s, sc) else acc)
    (none, currentBestScore.getD (f64Min / 2))

/-- One iteration of the optimize_cached loop in generate.rs: take the
best swap; if one strictly improves on the current best score, accept it,
otherwise stop. -/
def optStep (g : LayoutGeneration) (possible : List (ℕ × ℕ))
    (st : FastLayout × LayoutCache × ℚ) : Option (FastLayout × LayoutCache × ℚ) :=
  match bestSwapCached g st.1 st.2.1 (some st.2.2) possible with
  | (some s, ns) =>
    let lc := acceptSwap g st.1 s st.2.1
    some (lc.1, lc.2, ns)
  | (none, _) => none

/-- The optimize_cached loop with explicit fuel; the boolean records that
the loop reached its fixed point before the fuel ran out. -/
def optRun (g : LayoutGeneration) (possible : List (ℕ × ℕ)) :
    ℕ → FastLayout × LayoutCache × ℚ → (FastLayout × LayoutCache × ℚ) × Bool
  | 0, st => (st, false)
  | n + 1, st =>
    match optStep g possible st with
    | some st2 => optRun g possible n st2
    | none => (st, true)

/-- optimize_cached of generate.rs, fuelled. -/
def optimizeCachedFuel (g : LayoutGeneration) (possible : List (ℕ × ℕ)) (fuel : ℕ)
    (l : FastLayout) (cache : LayoutCache) : (FastLayout × LayoutCache × ℚ) × Bool :=
  optRun g possible fuel (l, cache, f64Min / 2)

/-- The COLS constant of generate.rs: the six non-index columns. -/
def COLS : List ℕ := [0, 1, 2, 7, 8, 9]

/-- State threaded through col_perms of generate.rs: the working layout
and cache plus the best layout and score seen so far. -/
structure ColPermState where
  layout : FastLayout
  cache : LayoutCache
  best : FastLayout
  bestScore : ℚ

/-- col_perms of generate.rs: the recursive Heap-style enumeration of
column permutations, evaluating the cache total at every leaf and
applying one column swap (three accept_swap calls collapse to the three
position pairs of a column pair; here the source applies accept_swap on
each PosPair (COLS i, COLS j) directly) after every recursive call. -/
def colPerms (g : LayoutGeneration) : ℕ → ColPermState → ColPermState
  | 0, st => st
  | 1, st =>
    if st.bestScore < st.cache.totalScore then
      { st with best := st.layout, bestScore := st.cache.totalScore }
    else st
  | k + 2, st =>
    (List.range (k + 2)).foldl (fun s i =>
      let s2 := colPerms g (k + 1) s
      let pr : ℕ × ℕ :=
        if (k + 2) % 2 = 0 then (COLS.getD i 0, COLS.getD (k + 1) 0)
        else (COLS.getD 0 0, COLS.getD (k + 1) 0)
      let lc := acceptSwap g s2.layout pr s2.cache
      { s2 with layout := lc.1, cache := lc.2 }) st

/-- Modelled from the spec: swap_indexes of layout.rs (not under src/);
spec section 4.8 describes it as exchanging the top and bottom rows. -/
def swapIndexes (l : FastLayout) : FastLayout :=
  { matrix := (l.matrix.drop 20).take 10 ++ (l.matrix.drop 10).take 10 ++ l.matrix.take 10,
    charIndices := l.charIndices.map (fun p =>
      if p < 10 then p + 20 else if 20 ≤ p ∧ p < 30 then p - 20 else p) }

/-- optimize_cols of generate.rs: run the column permutation pass, repeat
it on the row-swapped layout, and return the best layout seen together
with the (not resynchronised) cache and the best score. -/
def optimizeCols (g : LayoutGeneration) (l : FastLayout) (cache : LayoutCache)
    (scoreOpt : Option ℚ) : FastLayout × LayoutCache × ℚ :=
  let bs := scoreOpt.getD cache.totalScore
  let st1 := colPerms g 6 { layout := l, cache := cache, best := l, bestScore := bs }
  let st2 := colPerms g 6 { st1 with layout := swapIndexes st1.layout }
  (st2.best, st2.cache, st2.bestScore)

/-- The outer while loop of optimize in generate.rs, fuelled; the boolean
records that every loop completed before its fuel ran out. -/
def optLoop (g : LayoutGeneration) (possible : List (ℕ × ℕ)) (fuelInner : ℕ) :
    ℕ → FastLayout → LayoutCache → ℚ → ℚ → FastLayout × Bool
  | 0, l, _, _, _ => (l, false)
  | n + 1, l, cache, withColScore, optimizedScore =>
    if withColScore < optimizedScore then
      let r1 := optimizeCachedFuel g possible fuelInner l cache
      let st := r1.1
      let r2 := optimizeCols g st.1 st.2.1 (some st.2.2)
      let r3 := optLoop g possible fuelInner n r2.1 r2.2.1 r2.2.2 st.2.2
      (r3.1, r1.2 && r3.2)
    else (l, true)

/-- optimize of generate.rs, fuelled: build the cache, then alternate the
cached best-swap climb with the column permutation pass while the column
pass score is below the climb score. -/
def optimizeFuel (g : LayoutGeneration) (possible : List (ℕ × ℕ)) (l : FastLayout)
    (fuelInner fuelOuter : ℕ) : FastLayout × Bool :=
  optLoop g possible fuelInner fuelOuter l (initCache g l) f64Min (f64Min / 2)

/-- placeholder_name loop of analyze.rs: starting from suffix i, with k
attempts remaining, keep the first name not already known. -/
def tryNames (known : List (List Char)) (pre : List Char) : ℕ → ℕ → Option (List Char)
  | _, 0 => none
  | i, k + 1 =>
    let n := pre ++ (Nat.repr i).data
    if n ∈ known then tryNames known pre (i + 1) k else some n

/-- placeholder_name of analyze.rs: the stem is built from matrix
positions 10 to 13 and suffixed with the first free integer among
1, ..., 999 (the source loops for i in 1..1000). -/
def placeholderName (known : List (List Char)) (matrix : List Char) : Option (List Char) :=
  tryNames known ((matrix.drop 10).take 4) 1 999

/-- The name-selection step of save in analyze.rs: an explicit name has
its spaces replaced by underscores, otherwise the placeholder name is
generated. -/
def saveName (nameOpt : Option (List Char)) (known : List (List Char))
    (matrix : List Char) : Option (List Char) :=
  match nameOpt with
  | some n => some (n.map (fun ch => if ch = ' ' then '_' else ch))
  | none => placeholderName known matrix

/-- The registry ordering applied by load_layouts in generate.rs: sort_by
comparing a.score to b.score, an ascending stable comparison sort,
modelled by insertion sort. -/
def loadLayoutsOrderGen (xs : List (String × ℚ)) : List (String × ℚ) :=
  xs.insertionSort (fun a b => a.2 ≤ b.2)

/-- The registry ordering applied by load_layouts in analyze.rs: sort_by
comparing b.score to a.score, a descending stable comparison sort,
modelled by insertion sort. -/
def loadLayoutsOrderAnalyze (xs : List (String × ℚ)) : List (String × ℚ) :=
  xs.insertionSort (fun a b => b.2 ≤ a.2)

/-- The per-file collection loop of load_layouts in generate.rs: parse
each file, keep the parsed layouts in encounter order, and skip a file
whose contents fail to parse. -/
def loadCollectGen {α β : Type} (parse : α → Option β) (files : List (String × α)) :
    List (String × β) :=
  files.foldl (fun acc nc =>
    match parse nc.2 with
    | some lay => acc ++ [(nc.1, lay)]
    | none => acc) []

/-- The per-file collection loop of load_layouts in analyze.rs: the
unwrap on the parse result turns the first malformed file into a panic,
modelled as none for the whole load. -/
def loadCollectAnalyze {α β : Type} (parse : α → Option β) (files : List (String × α)) :
    Option (List (String × β)) :=
  files.foldl (fun acc nc =>
    acc.bind (fun a => (parse nc.2).map (fun lay => a ++ [(nc.1, lay)]))) (some [])

/-- The weighted value trigram_score_iter assigns to an accumulated
TrigramStats record. -/
def statsVal (g : LayoutGeneration) (fr : TrigramStats) : ℚ :=
  g.weights.inrolls * fr.inrolls + g.weights.outrolls * fr.outrolls
    + g.weights.onehands * fr.onehands + g.weights.alternates * fr.alternates
    + g.weights.alternatesSfs * fr.alternatesSfs
    - g.weights.redirects * fr.redirects - g.weights.badRedirects * fr.badRedirects

/-- The contribution of a single weighted trigram entry to
trigram_score_iter. -/
def triContrib (g : LayoutGeneration) (l : FastLayout) (tf : (ℕ × ℕ × ℕ) × ℚ) : ℚ :=
  patWeight g (getTrigramPattern g l tf.1) * tf.2

/-- Well-formedness of the fspeed_vals table with respect to the column
slicing: every pair in the slice of a column lies in that column.  The
table built by get_fspeed in utility.rs satisfies this by construction
(spec section 4.4 lists the 48 same-column pairs column by column, in the
order col_to_start_len indexes them). -/
def fspeedSliceOk (g : LayoutGeneration) : Prop :=
  ∀ col, col < 8 → ∀ pd ∈ fspeedSlice g col, iToCol pd.1.1 = col ∧ iToCol pd.1.2 = col

/-- Coverage of the trigram list by the possible-character set: the data
invariant of spec section 3, every id used in an n-gram has a character
entry, which is what the LayoutGeneration constructor relies on when it
builds per_char_trigrams from the character list. -/
def trigCovered (g : LayoutGeneration) : Prop :=
  ∀ tf ∈ g.data.trigrams,
    tf.1.1 ∈ g.possibleChars ∧ tf.1.2.1 ∈ g.possibleChars ∧ tf.1.2.2 ∈ g.possibleChars

/-- A cache is consistent with a layout when it equals the cache that
initialize_cache builds from that layout. -/
def cacheConsistent (g : LayoutGeneration) (l : FastLayout) (c : LayoutCache) : Prop :=
  c = initCache g l

/-- The cache state that accept_swap maintains, as a function of the
starting layout l0 and the current layout l: every per-position and
per-column entry is the fresh recomputation on l, while the trigram total
is the full-list total of l0 corrected by the truncated-list totals,
because the incremental trigram updates only see the truncated
per-character lists. -/
def canonCache (g : LayoutGeneration) (l0 l : FastLayout) : LayoutCache :=
  let eff := (List.range 30).map (charEffort g l)
  let us := (List.range 8).map (colUsage g l)
  let fs := (List.range 8).map (colFspeed g l)
  { effort := eff, effortTotal := eff.sum,
    scissors := scissorScore g l,
    usage := us, usageTotal := us.sum,
    fspeed := fs, fspeedTotal := fs.sum,
    trigramsTotal := trigramScoreIter g l0 g.data.trigrams
      - trigramScoreIter g l0 (g.data.trigrams.take g.precision)
      + trigramScoreIter g l (g.data.trigrams.take g.precision) }

/-- Bound on the layouts reachable from l0 by swaps of in-range
positions: a 30-entry matrix drawing its values from the values of l0,
and a reverse index of unchanged length whose entries are either original
entries of l0 or positions below 30. -/
def layoutBounded (l0 l : FastLayout) : Prop :=
  l.matrix.length = 30 ∧ (∀ v ∈ l.matrix, v ∈ l0.matrix) ∧
    l.charIndices.length = l0.charIndices.length ∧
    (∀ v ∈ l.charIndices, v ∈ l0.charIndices ∨ v < 30)

/-- The language model with one fresh key of each table prepended with
frequency 0.  Claim C10 is that this leaves every scoring operation
unchanged when the keys were absent: an absent key already contributes
exactly 0. -/
def extendTables (g : LayoutGeneration) (kc : ℕ) (kb ks ks2 ks3 : ℕ × ℕ) : LayoutGeneration :=
  { g with data :=
    { characters := (kc, 0) :: g.data.characters,
      bigrams := (kb, 0) :: g.data.bigrams,
      skipgrams := (ks, 0) :: g.data.skipgrams,
      skipgrams2 := (ks2, 0) :: g.data.skipgrams2,
      skipgrams3 := (ks3, 0) :: g.data.skipgrams3,
      trigrams := g.data.trigrams } }

/-- All-zero finger-use thresholds. -/
def mfuZero : MaxFingerUse := ⟨0, 0, 0, 0, 0⟩

/-- All-zero weights. -/
def weightsZero : Weights := ⟨0, 0, 0, 0, 0, 0, 0, 0, 0, 0, 0, 0, mfuZero⟩

/-- The identity layout on the ids 0, ..., 29: the id k sits at position
k and the reverse index is the identity. -/
def layoutId : FastLayout := { matrix := List.range 30, charIndices := List.range 30 }

/-- Language model for the C1 counterexample: thirty characters of
frequency 0, no bigram data, and the single trigram (0, 11, 2). -/
def dataC1 : LanguageData :=
  { characters := (List.range 30).map (fun c => (c, 0)),
    bigrams := [], skipgrams := [], skipgrams2 := [], skipgrams3 := [],
    trigrams := [((0, 11, 2), 1)] }

/-- Classifier values for the position triples the C1 counterexample
evaluates, agreeing with the spec section 4.5 rules there: positions
(0, 11, 2) are all left-hand on columns 0, 1, 2 in ascending order, a
Onehand; positions (9, 11, 2) are right pinky then a left-hand pair
rolling from column 1 to column 2 toward the index, an Inroll. -/
def classifyC1 : ℕ → ℕ → ℕ → TrigramPattern := fun a b c =>
  if a = 0 ∧ b = 11 ∧ c = 2 then TrigramPattern.Onehand
  else if a = 9 ∧ b = 11 ∧ c = 2 then TrigramPattern.Inroll
  else TrigramPattern.Other

/-- Weights for the C1 counterexample: only onehands rewarded. -/
def weightsC1 : Weights := { weightsZero with onehands := 1 }

/-- LayoutGeneration for the C1 counterexample, built with
trigram_precision 0, so per_char_trigrams holds empty lists while the
cache trigram total is seeded from the full list. -/
def genC1 : LayoutGeneration :=
  { data := dataC1, possibleChars := List.range 30, precision := 0,
    fspeedVals := [], effortMap := fun _ => 0, scissorIndices := [],
    weights := weightsC1, classify := classifyC1 }

/-- Language model for the C3 counterexample: the bigram tables hold the
pair (0, 1) with four different frequencies, so the four tables are
distinguishable through bigram_percent. -/
def dataC3 : LanguageData :=
  { characters := [],
    bigrams := [((0, 1), 3)], skipgrams := [((0, 1), 5)],
    skipgrams2 := [((0, 1), 7)], skipgrams3 := [((0, 1), 11)],
    trigrams := [] }

/-- LayoutGeneration for the C3 counterexample: a single fspeed pair over
positions 0 and 1. -/
def genC3 : LayoutGeneration :=
  { data := dataC3, possibleChars := [], precision := 0,
    fspeedVals := [((0, 1), 1)], effortMap := fun _ => 0, scissorIndices := [],
    weights := weightsZero, classify := fun _ _ _ => TrigramPattern.Other }

/-- Language model for the C4 counterexample: three unit-frequency
trigrams over characters sitting on the index columns of the identity
layout, so that the column permutation pass never moves them. -/
def dataC4 : LanguageData :=
  { characters := (List.range 30).map (fun c => (c, 0)),
    bigrams := [], skipgrams := [], skipgrams2 := [], skipgrams3 := [],
    trigrams := [((13, 4, 16), 1), ((15, 4, 16), 1), ((15, 24, 6), 1)] }

/-- Classifier values for the position triples the C4 counterexample
evaluates, agreeing with the spec section 4.5 rules there: (15, 4, 16)
and (15, 24, 6) are right-left-right hand patterns with the same column
on first and third key, AlternateSfs; (13, 4, 16) and (13, 24, 6) start
with a same-finger adjacent pair on left column 3, Sfb. -/
def classifyC4 : ℕ → ℕ → ℕ → TrigramPattern := fun a b c =>
  if a = 15 ∧ b = 4 ∧ c = 16 then TrigramPattern.AlternateSfs
  else if a = 15 ∧ b = 24 ∧ c = 6 then TrigramPattern.AlternateSfs
  else if a = 13 ∧ b = 4 ∧ c = 16 then TrigramPattern.Sfb
  else if a = 13 ∧ b = 24 ∧ c = 6 then TrigramPattern.Sfb
  else TrigramPattern.Other

/-- Weights for the C4 counterexample: only alternates with same finger
rewarded. -/
def weightsC4 : Weights := { weightsZero with alternatesSfs := 1 }

/-- LayoutGeneration for the C4 counterexample, with trigram_precision 1:
only the first trigram is visible to the incremental updates. -/
def genC4 : LayoutGeneration :=
  { data := dataC4, possibleChars := List.range 30, precision := 1,
    fspeedVals := [], effortMap := fun _ => 0, scissorIndices := [],
    weights := weightsC4, classify := classifyC4 }

/-- The run of optimize on the C4 counterexample: the identity layout
with the single candidate swap of positions 13 and 15. -/
def c4run : FastLayout × Bool := optimizeFuel genC4 [(13, 15)] layoutId 10 2

/-- Small witness language model: full frequency tables over 30
characters with two trigrams. -/
def dataW : LanguageData :=
  { characters := (List.range 30).map (fun c => (c, 1 / 60)),
    bigrams := [((0, 1), 1 / 100)], skipgrams := [((0, 1), 1 / 200)],
    skipgrams2 := [], skipgrams3 := [],
    trigrams := [((0, 11, 2), 1 / 10), ((1, 2, 3), 1 / 20)] }

/-- Witness weights: every weight set to 1. -/
def weightsW : Weights := ⟨1, 1, 1, 1, 1, 1, 1, 1, 1, 1, 1, 1, ⟨1, 1, 1, 1, 1⟩⟩

/-- Witness LayoutGeneration: trigram_precision 2 covers the whole
trigram list. -/
def genW : LayoutGeneration :=
  { data := dataW, possibleChars := List.range 30, precision := 2,
    fspeedVals := [], effortMap := fun _ => 0, scissorIndices := [],
    weights := weightsW, classify := classifyC1 }

/-- The QWERTY layout string as characters, as parsed from a .kb file. -/
def qwertyChars : List Char := "qwertyuiopasdfghjkl;zxcvbnm,./".data

/-- The twelve positions the column permutation pass of the C4
counterexample can touch: the top and bottom row cells of the six
non-index columns (col_perms swaps the COLS positions directly, and
swap_indexes exchanges the top and bottom rows). -/
def pSet : List ℕ := [0, 1, 2, 7, 8, 9, 20, 21, 22, 27, 28, 29]

/-- Invariant maintained by the column permutation pass on the C4
counterexample: a 30-key layout whose pSet positions never hold a
character of the truncation-visible trigram, a cache whose static
aspects are identically zero with trigram total 3, and the best score
pinned at 3. -/
def c4ColInv (st : ColPermState) : Prop :=
  st.layout.matrix.length = 30
    ∧ (∀ p ∈ pSet, trigramContains (st.layout.c p) (13, 4, 16) = false)
    ∧ (∀ i, st.cache.effort.getD i 0 = 0)
    ∧ (∀ i, st.cache.usage.getD i 0 = 0)
    ∧ (∀ i, st.cache.fspeed.getD i 0 = 0)
    ∧ st.cache.effortTotal = 0 ∧ st.cache.usageTotal = 0 ∧ st.cache.fspeedTotal = 0
    ∧ st.cache.scissors = 0 ∧ st.cache.trigramsTotal = 3

/-- Invariant of the optimize_cached climb: the layout stays within the
finitely many layouts reachable from l0 by in-range swaps, and the cache
is the canonical cache of the current layout. -/
def optInv (g : LayoutGeneration) (l0 : FastLayout)
    (st : FastLayout × LayoutCache × ℚ) : Prop :=
  layoutBounded l0 st.1 ∧ st.2.1 = canonCache g l0 st.1

theorem getD_set_ne {α : Type} (xs : List α) {i j : ℕ} (h : i ≠ j) (v d : α) :
    (xs.set i v).getD j d = xs.getD j d := by
  simp [List.getD_eq_getElem?_getD, List.getElem?_set, h]

theorem getD_set_eq {α : Type} (xs : List α) {i : ℕ} (h : i < xs.length) (v d : α) :
    (xs.set i v).getD i d = v := by
  simp [List.getD_eq_getElem?_getD, List.getElem?_set, h]

theorem getD_map_range {f : ℕ → ℚ} {n a : ℕ} (h : a < n) :
    (((List.range n).map f).getD a 0) = f a := by
  rw [List.getD_eq_getElem?_getD, List.getElem?_eq_getElem (by simpa using h)]
  simp

theorem listSum_map_range (n : ℕ) (f : ℕ → ℚ) : ((List.range n).map f).sum = listSum n f := rfl

theorem listSum_congr {n : ℕ} {f g : ℕ → ℚ} (h : ∀ i < n, f i = g i) :
    listSum n f = listSum n g := by
  unfold listSum
  congr 1
  exact List.map_congr_left (fun i hi => h i (List.mem_range.mp hi))

theorem listSum_eq_finset (n : ℕ) (f : ℕ → ℚ) : listSum n f = ∑ i ∈ Finset.range n, f i := by
  simp [listSum, Finset.sum_range, Finset.sum]
  rfl

theorem listSum_add (n : ℕ) (f g : ℕ → ℚ) :
    listSum n (fun i => f i + g i) = listSum n f + listSum n g := by
  simp [listSum_eq_finset, Finset.sum_add_distrib]

theorem listSum_update2 {n a b : ℕ} {f g : ℕ → ℚ} (ha : a < n) (hb : b < n) (hab : a ≠ b)
    (h : ∀ i < n, i ≠ a → i ≠ b → f i = g i) :
    listSum n f - f a - f b + g a + g b = listSum n g := by
  have hma : a ∈ Finset.range n := Finset.mem_range.mpr ha
  have hmb : b ∈ (Finset.range n).erase a := by
    exact Finset.mem_erase.mpr ⟨Ne.symm hab, Finset.mem_range.mpr hb⟩
  have hf : listSum n f = ∑ i ∈ ((Finset.range n).erase a).erase b, f i + f b + f a := by
    rw [listSum_eq_finset, ← Finset.sum_erase_add _ _ hma, ← Finset.sum_erase_add _ _ hmb]
  have hg : listSum n g = ∑ i ∈ ((Finset.range n).erase a).erase b, g i + g b + g a := by
    rw [listSum_eq_finset, ← Finset.sum_erase_add _ _ hma, ← Finset.sum_erase_add _ _ hmb]
  have hsame : ∑ i ∈ ((Finset.range n).erase a).erase b, f i
      = ∑ i ∈ ((Finset.range n).erase a).erase b, g i := by
    refine Finset.sum_congr rfl (fun i hi => ?_)
    have hib := (Finset.mem_erase.mp hi).1
    have hia := (Finset.mem_erase.mp (Finset.mem_erase.mp hi).2).1
    have hin := Finset.mem_range.mp (Finset.mem_erase.mp (Finset.mem_erase.mp hi).2).2
    exact h i hin hia hib
  rw [hf, hg, hsame]
  ring

theorem listSum_update1 {n a : ℕ} {f g : ℕ → ℚ} (ha : a < n)
    (h : ∀ i < n, i ≠ a → f i = g i) :
    listSum n f - f a + g a = listSum n g := by
  have hma : a ∈ Finset.range n := Finset.mem_range.mpr ha
  have hf : listSum n f = ∑ i ∈ (Finset.range n).erase a, f i + f a := by
    rw [listSum_eq_finset, ← Finset.sum_erase_add _ _ hma]
  have hg : listSum n g = ∑ i ∈ (Finset.range n).erase a, g i + g a := by
    rw [listSum_eq_finset, ← Finset.sum_erase_add _ _ hma]
  have hsame : ∑ i ∈ (Finset.range n).erase a, f i = ∑ i ∈ (Finset.range n).erase a, g i := by
    refine Finset.sum_congr rfl (fun i hi => ?_)
    exact h i (Finset.mem_range.mp (Finset.mem_erase.mp hi).2) (Finset.mem_erase.mp hi).1
  rw [hf, hg, hsame]
  ring

theorem statsVal_iterStep (g : LayoutGeneration) (l : FastLayout) (st : TrigramStats)
    (tf : (ℕ × ℕ × ℕ) × ℚ) :
    statsVal g (iterStep g l st tf) = statsVal g st + triContrib g l tf := by
  unfold iterStep triContrib
  cases h : getTrigramPattern g l tf.1 <;> simp [statsVal, patWeight] <;> ring

theorem statsVal_foldl (g : LayoutGeneration) (l : FastLayout)
    (ts : List ((ℕ × ℕ × ℕ) × ℚ)) :
    ∀ st, statsVal g (ts.foldl (iterStep g l) st)
      = statsVal g st + (ts.map (triContrib g l)).sum := by
  induction ts with
  | nil => intro st; simp
  | cons x t ih =>
    intro st
    simp only [List.foldl_cons, List.map_cons, List.sum_cons, ih, statsVal_iterStep]
    ring

theorem trigramScoreIter_eq_sum (g : LayoutGeneration) (l : FastLayout)
    (ts : List ((ℕ × ℕ × ℕ) × ℚ)) :
    trigramScoreIter g l ts = (ts.map (triContrib g l)).sum := by
  have h : trigramScoreIter g l ts = statsVal g (ts.foldl (iterStep g l) statsZero) := rfl
  rw [h, statsVal_foldl]
  simp [statsVal, statsZero]

theorem trigramScoreIter_append (g : LayoutGeneration) (l : FastLayout)
    (a b : List ((ℕ × ℕ × ℕ) × ℚ)) :
    trigramScoreIter g l (a ++ b) = trigramScoreIter g l a + trigramScoreIter g l b := by
  simp [trigramScoreIter_eq_sum]

theorem trigramScoreIter_nil (g : LayoutGeneration) (l : FastLayout) :
    trigramScoreIter g l [] = 0 := by
  simp [trigramScoreIter_eq_sum]

theorem sum_filter_or {α : Type} (T : List α) (p q : α → Bool) (f : α → ℚ) :
    ((T.filter p).map f).sum + ((T.filter (fun x => !p x && q x)).map f).sum
      = ((T.filter (fun x => p x || q x)).map f).sum := by
  induction T with
  | nil => simp
  | cons x t ih =>
    by_cases hp : p x <;> by_cases hq : q x <;>
      simp [List.filter_cons, hp, hq] <;> linarith [ih]

theorem sum_sub_filter {α : Type} (T : List α) (p : α → Bool) (F G : α → ℚ)
    (h : ∀ x ∈ T, p x = false → F x = G x) :
    (T.map F).sum - (T.map G).sum = ((T.filter p).map F).sum - ((T.filter p).map G).sum := by
  induction T with
  | nil => simp
  | cons x t ih =>
    have ihx := ih (fun y hy hp => h y (List.mem_cons_of_mem x hy) hp)
    by_cases hp : p x
    · simp only [List.filter_cons, hp, if_true, List.map_cons, List.sum_cons, ite_true]
      linarith [ihx]
    · have hx := h x (List.mem_cons_self x t) (by simpa using hp)
      simp only [List.filter_cons, hp, List.map_cons, List.sum_cons, ite_false,
        Bool.false_eq_true, if_false]
      rw [hx]
      linarith [ihx]

theorem swap_matrix_length (l : FastLayout) (s : ℕ × ℕ) :
    (swapPairNoBounds l s).matrix.length = l.matrix.length := by
  simp [swapPairNoBounds]

theorem swap_ci_length (l : FastLayout) (s : ℕ × ℕ) :
    (swapPairNoBounds l s).charIndices.length = l.charIndices.length := by
  simp [swapPairNoBounds]

theorem swap_c_ne (l : FastLayout) (s : ℕ × ℕ) {j : ℕ} (h1 : s.1 ≠ j) (h2 : s.2 ≠ j) :
    (swapPairNoBounds l s).c j = l.c j := by
  unfold swapPairNoBounds FastLayout.c
  simp only
  rw [getD_set_ne _ h2, getD_set_ne _ h1]

theorem swap_c_snd (l : FastLayout) (s : ℕ × ℕ) (h2 : s.2 < l.matrix.length) :
    (swapPairNoBounds l s).c s.2 = l.c s.1 := by
  unfold swapPairNoBounds FastLayout.c
  simp only
  rw [getD_set_eq]
  simpa using h2

theorem swap_c_fst (l : FastLayout) (s : ℕ × ℕ) (h1 : s.1 < l.matrix.length) :
    (swapPairNoBounds l s).c s.1 = l.c s.2 := by
  by_cases he : s.2 = s.1
  · rw [← he, swap_c_snd l s (he ▸ h1), he]
  · unfold swapPairNoBounds FastLayout.c
    simp only
    rw [getD_set_ne _ he, getD_set_eq _ h1]

theorem swap_pos_ne (l : FastLayout) (s : ℕ × ℕ) {ch : ℕ} (h1 : l.c s.1 ≠ ch)
    (h2 : l.c s.2 ≠ ch) :
    (swapPairNoBounds l s).pos ch = l.pos ch := by
  unfold swapPairNoBounds FastLayout.pos
  simp only
  rw [getD_set_ne _ h2, getD_set_ne _ h1]

theorem pattern_swap_of_not_contains (g : LayoutGeneration) (l : FastLayout) (s : ℕ × ℕ)
    (t : ℕ × ℕ × ℕ) (h1 : trigramContains (l.c s.1) t = false)
    (h2 : trigramContains (l.c s.2) t = false) :
    getTrigramPattern g (swapPairNoBounds l s) t = getTrigramPattern g l t := by
  simp only [trigramContains, Bool.or_eq_false_iff, decide_eq_false_iff_not] at h1 h2
  obtain ⟨⟨h1a, h1b⟩, h1c⟩ := h1
  obtain ⟨⟨h2a, h2b⟩, h2c⟩ := h2
  unfold getTrigramPattern
  rw [swap_pos_ne l s (fun h => h1a h.symm) (fun h => h2a h.symm),
    swap_pos_ne l s (fun h => h1b h.symm) (fun h => h2b h.symm),
    swap_pos_ne l s (fun h => h1c h.symm) (fun h => h2c h.symm)]

theorem triContrib_swap_of_not_contains (g : LayoutGeneration) (l : FastLayout) (s : ℕ × ℕ)
    (tf : (ℕ × ℕ × ℕ) × ℚ) (h1 : trigramContains (l.c s.1) tf.1 = false)
    (h2 : trigramContains (l.c s.2) tf.1 = false) :
    triContrib g (swapPairNoBounds l s) tf = triContrib g l tf := by
  unfold triContrib
  rw [pattern_swap_of_not_contains g l s tf.1 h1 h2]

theorem not_contains_of_not_possible (g : LayoutGeneration) (hcov : trigCovered g)
    {c : ℕ} (hc : c ∉ g.possibleChars) :
    ∀ tf ∈ g.data.trigrams.take g.precision, trigramContains c tf.1 = false := by
  intro tf htf
  by_contra hcon
  have hc3 : trigramContains c tf.1 = true := by simpa using hcon
  have hcv := hcov tf (List.mem_of_mem_take htf)
  rcases (by simpa [trigramContains, Bool.or_eq_true, decide_eq_true_eq] using hc3) with
    ((h | h) | h)
  · exact hc (h ▸ hcv.1)
  · exact hc (h ▸ hcv.2.1)
  · exact hc (h ▸ hcv.2.2)

theorem tcs_eq_filter (g : LayoutGeneration) (l : FastLayout) (s : ℕ × ℕ)
    (hcov : trigCovered g) :
    trigramCharScore g l s = trigramScoreIter g l
      ((g.data.trigrams.take g.precision).filter
        (fun tf => trigramContains (l.c s.1) tf.1 || trigramContains (l.c s.2) tf.1)) := by
  unfold trigramCharScore
  by_cases hm1 : l.c s.1 ∈ g.possibleChars <;> by_cases hm2 : l.c s.2 ∈ g.possibleChars <;>
    simp only [perCharTrigrams, hm1, hm2, if_true, if_false, ite_true, ite_false]
  · by_cases hlen : ((g.data.trigrams.take g.precision).filter
        (fun tf => trigramContains (l.c s.2) tf.1)).length
        ≤ ((g.data.trigrams.take g.precision).filter
          (fun tf => trigramContains (l.c s.1) tf.1)).length
    · rw [if_pos hlen, trigramScoreIter_append]
      rw [trigramScoreIter_eq_sum, trigramScoreIter_eq_sum, trigramScoreIter_eq_sum,
        List.filter_filter]
      exact sum_filter_or _ _ _ _
    · rw [if_neg hlen, trigramScoreIter_append]
      rw [trigramScoreIter_eq_sum, trigramScoreIter_eq_sum, trigramScoreIter_eq_sum,
        List.filter_filter]
      rw [@List.filter_congr _
        (fun tf => trigramContains (l.c s.1) tf.1 || trigramContains (l.c s.2) tf.1)
        (fun tf => trigramContains (l.c s.2) tf.1 || trigramContains (l.c s.1) tf.1)
        (g.data.trigrams.take g.precision) (fun tf _ => Bool.or_comm _ _)]
      exact sum_filter_or _ _ _ _
  · rw [@List.filter_congr _
      (fun tf => trigramContains (l.c s.1) tf.1 || trigramContains (l.c s.2) tf.1)
      (fun tf => trigramContains (l.c s.1) tf.1)
      (g.data.trigrams.take g.precision) (fun tf htf => by
        show (trigramContains (l.c s.1) tf.1 || trigramContains (l.c s.2) tf.1)
          = trigramContains (l.c s.1) tf.1
        rw [not_contains_of_not_possible g hcov hm2 tf htf, Bool.or_false])]
  · rw [@List.filter_congr _
      (fun tf => trigramContains (l.c s.1) tf.1 || trigramContains (l.c s.2) tf.1)
      (fun tf => trigramContains (l.c s.2) tf.1)
      (g.data.trigrams.take g.precision) (fun tf htf => by
        show (trigramContains (l.c s.1) tf.1 || trigramContains (l.c s.2) tf.1)
          = trigramContains (l.c s.2) tf.1
        rw [not_contains_of_not_possible g hcov hm1 tf htf, Bool.false_or])]
  · rw [List.filter_eq_nil_iff.mpr (fun tf htf => by
      simp [not_contains_of_not_possible g hcov hm1 tf htf,
        not_contains_of_not_possible g hcov hm2 tf htf]), trigramScoreIter_nil]

theorem tcs_delta (g : LayoutGeneration) (l : FastLayout) (s : ℕ × ℕ) (hcov : trigCovered g)
    (h1 : s.1 < 30) (h2 : s.2 < 30) (hlen : l.matrix.length = 30) :
    trigramCharScore g (swapPairNoBounds l s) s - trigramCharScore g l s
      = trigramScoreIter g (swapPairNoBounds l s) (g.data.trigrams.take g.precision)
        - trigramScoreIter g l (g.data.trigrams.take g.precision) := by
  have e1 : (swapPairNoBounds l s).c s.1 = l.c s.2 := swap_c_fst l s (hlen ▸ h1)
  have e2 : (swapPairNoBounds l s).c s.2 = l.c s.1 := swap_c_snd l s (hlen ▸ h2)
  rw [tcs_eq_filter g l s hcov, tcs_eq_filter g (swapPairNoBounds l s) s hcov]
  rw [@List.filter_congr _
    (fun tf => trigramContains ((swapPairNoBounds l s).c s.1) tf.1
      || trigramContains ((swapPairNoBounds l s).c s.2) tf.1)
    (fun tf => trigramContains (l.c s.1) tf.1 || trigramContains (l.c s.2) tf.1)
    (g.data.trigrams.take g.precision)
    (fun tf _ => by
      show (trigramContains ((swapPairNoBounds l s).c s.1) tf.1
          || trigramContains ((swapPairNoBounds l s).c s.2) tf.1)
        = (trigramContains (l.c s.1) tf.1 || trigramContains (l.c s.2) tf.1)
      rw [e1, e2]
      exact Bool.or_comm _ _)]
  rw [trigramScoreIter_eq_sum, trigramScoreIter_eq_sum, trigramScoreIter_eq_sum,
    trigramScoreIter_eq_sum]
  refine (sum_sub_filter _ _ _ _ (fun tf htf hp => ?_)).symm
  have hp2 := hp
  rw [Bool.or_eq_false_iff] at hp2
  exact triContrib_swap_of_not_contains g l s tf hp2.1 hp2.2

theorem iToCol_lt : ∀ i, i < 30 → iToCol i < 8 := by decide

theorem colPositions_col : ∀ col, col < 8 → ∀ p ∈ colPositions col, iToCol p = col := by decide

theorem charEffort_swap_ne (g : LayoutGeneration) (l : FastLayout) (s : ℕ × ℕ) {i : ℕ}
    (h1 : s.1 ≠ i) (h2 : s.2 ≠ i) :
    charEffort g (swapPairNoBounds l s) i = charEffort g l i := by
  unfold charEffort
  rw [swap_c_ne l s h1 h2]

theorem colUsage_swap_ne (g : LayoutGeneration) (l : FastLayout) (s : ℕ × ℕ) {col : ℕ}
    (hcol : col < 8) (hc1 : iToCol s.1 ≠ col) (hc2 : iToCol s.2 ≠ col) :
    colUsage g (swapPairNoBounds l s) col = colUsage g l col := by
  unfold colUsage
  have hpos : ∀ p ∈ colPositions col, (swapPairNoBounds l s).c p = l.c p := by
    intro p hp
    have hpcol := colPositions_col col hcol p hp
    refine swap_c_ne l s (fun h => hc1 ?_) (fun h => hc2 ?_)
    · rw [h, hpcol]
    · rw [h, hpcol]
  rw [List.map_congr_left (fun p hp => by rw [hpos p hp])]

theorem colFspeed_swap_ne (g : LayoutGeneration) (l : FastLayout) (s : ℕ × ℕ) {col : ℕ}
    (hsl : fspeedSliceOk g) (hcol : col < 8) (hc1 : iToCol s.1 ≠ col) (hc2 : iToCol s.2 ≠ col) :
    colFspeed g (swapPairNoBounds l s) col = colFspeed g l col := by
  unfold colFspeed
  refine congrArg (fun x => x * g.weights.fspeed) ?_
  refine congrArg List.sum (List.map_congr_left (fun pd hpd => ?_))
  have hcols := hsl col hcol pd hpd
  have e1 : (swapPairNoBounds l s).c pd.1.1 = l.c pd.1.1 := by
    refine swap_c_ne l s (fun h => hc1 ?_) (fun h => hc2 ?_)
    · rw [h, hcols.1]
    · rw [h, hcols.1]
  have e2 : (swapPairNoBounds l s).c pd.1.2 = l.c pd.1.2 := by
    refine swap_c_ne l s (fun h => hc1 ?_) (fun h => hc2 ?_)
    · rw [h, hcols.2]
    · rw [h, hcols.2]
  simp only [e1, e2]

theorem scissorScore_swap_not_affects (g : LayoutGeneration) (l : FastLayout) (s : ℕ × ℕ)
    (h : affectsScissor g s = false) :
    scissorScore g (swapPairNoBounds l s) = scissorScore g l := by
  unfold affectsScissor at h
  rw [List.any_eq_false] at h
  unfold scissorScore
  refine congrArg (fun x => x * g.weights.scissors) ?_
  refine congrArg List.sum (List.map_congr_left (fun p hp => ?_))
  have hq := h p hp
  simp only [Bool.or_eq_true, decide_eq_true_eq, not_or] at hq
  obtain ⟨⟨⟨ha, hb⟩, hc⟩, hd⟩ := hq
  rw [swap_c_ne l s (fun hh => ha hh.symm) (fun hh => hb hh.symm),
    swap_c_ne l s (fun hh => hc hh.symm) (fun hh => hd hh.symm)]

theorem scoreSwap_eq_accept (g : LayoutGeneration) (l : FastLayout) (s : ℕ × ℕ)
    (cache : LayoutCache) :
    scoreSwapCached g l s cache = ((acceptSwap g l s cache).2).totalScore := by
  unfold scoreSwapCached acceptSwap LayoutCache.totalScore
  by_cases hc : iToCol s.1 = iToCol s.2 <;> by_cases hsc : affectsScissor g s <;>
    simp only [hc, hsc, if_true, if_false, ite_true, ite_false] <;> ring

theorem initCache_eq_canon (g : LayoutGeneration) (l : FastLayout) :
    initCache g l = canonCache g l l := by
  unfold initCache canonCache
  simp only [LayoutCache.mk.injEq, and_true, true_and]
  ring

theorem set1_map_range_eq {n a : ℕ} (f g : ℕ → ℚ) (ha : a < n)
    (hoff : ∀ i < n, i ≠ a → f i = g i) :
    ((List.range n).map f).set a (g a) = (List.range n).map g := by
  refine List.ext_getElem (by simp) (fun i hi1 hi2 => ?_)
  have hi : i < n := by simpa using hi2
  rw [List.getElem_set, List.getElem_map, List.getElem_range]
  by_cases hai : a = i
  · rw [if_pos hai, hai, List.getElem_map, List.getElem_range]
  · rw [if_neg hai, List.getElem_map, List.getElem_range]
    exact hoff i hi (fun h => hai h.symm)

theorem set2_map_range_eq {n a b : ℕ} (f g : ℕ → ℚ) (ha : a < n) (hb : b < n)
    (hoff : ∀ i < n, i ≠ a → i ≠ b → f i = g i) :
    ((((List.range n).map f).set a (g a)).set b (g b)) = (List.range n).map g := by
  refine List.ext_getElem (by simp) (fun i hi1 hi2 => ?_)
  have hi : i < n := by simpa using hi2
  rw [List.getElem_set, List.getElem_set, List.getElem_map, List.getElem_range]
  by_cases hbi : b = i
  · rw [if_pos hbi, hbi, List.getElem_map, List.getElem_range]
  · rw [if_neg hbi]
    by_cases hai : a = i
    · rw [if_pos hai, hai, List.getElem_map, List.getElem_range]
    · rw [if_neg hai, List.getElem_map, List.getElem_range]
      exact hoff i hi (fun h => hai h.symm) (fun h => hbi h.symm)

theorem acceptSwap_canon (g : LayoutGeneration) (l0 l : FastLayout) (s : ℕ × ℕ)
    (hcov : trigCovered g) (hsl : fspeedSliceOk g)
    (h1 : s.1 < 30) (h2 : s.2 < 30) (hne : s.1 ≠ s.2) (hlen : l.matrix.length = 30) :
    acceptSwap g l s (canonCache g l0 l)
      = (swapPairNoBounds l s, canonCache g l0 (swapPairNoBounds l s)) := by
  have hcol1 : iToCol s.1 < 8 := iToCol_lt s.1 h1
  have hcol2 : iToCol s.2 < 8 := iToCol_lt s.2 h2
  have heffArr : ((((List.range 30).map (charEffort g l)).set s.1
        (charEffort g (swapPairNoBounds l s) s.1)).set s.2
          (charEffort g (swapPairNoBounds l s) s.2))
      = (List.range 30).map (charEffort g (swapPairNoBounds l s)) :=
    set2_map_range_eq _ _ h1 h2 (fun i _ hia hib =>
      (charEffort_swap_ne g l s (fun h => hia h.symm) (fun h => hib h.symm)).symm)
  have heffTot : ((List.range 30).map (charEffort g l)).sum
      - ((List.range 30).map (charEffort g l)).getD s.1 0
      - ((List.range 30).map (charEffort g l)).getD s.2 0
      + charEffort g (swapPairNoBounds l s) s.1 + charEffort g (swapPairNoBounds l s) s.2
      = ((List.range 30).map (charEffort g (swapPairNoBounds l s))).sum := by
    rw [getD_map_range h1, getD_map_range h2]
    exact @listSum_update2 30 s.1 s.2 (charEffort g l) (charEffort g (swapPairNoBounds l s))
      h1 h2 hne (fun i _ hia hib =>
        (charEffort_swap_ne g l s (fun h => hia h.symm) (fun h => hib h.symm)).symm)
  have htri : (trigramScoreIter g l0 g.data.trigrams
        - trigramScoreIter g l0 (g.data.trigrams.take g.precision)
        + trigramScoreIter g l (g.data.trigrams.take g.precision))
      - trigramCharScore g l s + trigramCharScore g (swapPairNoBounds l s) s
      = trigramScoreIter g l0 g.data.trigrams
        - trigramScoreIter g l0 (g.data.trigrams.take g.precision)
        + trigramScoreIter g (swapPairNoBounds l s) (g.data.trigrams.take g.precision) := by
    have hd := tcs_delta g l s hcov h1 h2 hlen
    linarith
  unfold acceptSwap canonCache
  dsimp only
  split_ifs with hsc hcc hcc2
  · rw [Prod.mk.injEq, LayoutCache.mk.injEq]
    have husArr : (((List.range 8).map (colUsage g l)).set (iToCol s.1)
          (colUsage g (swapPairNoBounds l s) (iToCol s.1)))
        = (List.range 8).map (colUsage g (swapPairNoBounds l s)) :=
      set1_map_range_eq _ _ hcol1 (fun col hc hca =>
        (colUsage_swap_ne g l s hc (fun h => hca h.symm)
          (fun h => hca (hcc ▸ h.symm))).symm)
    have husTot : ((List.range 8).map (colUsage g l)).sum
        - ((List.range 8).map (colUsage g l)).getD (iToCol s.1) 0
        + colUsage g (swapPairNoBounds l s) (iToCol s.1)
        = ((List.range 8).map (colUsage g (swapPairNoBounds l s))).sum := by
      rw [getD_map_range hcol1]
      exact @listSum_update1 8 (iToCol s.1) (colUsage g l)
        (colUsage g (swapPairNoBounds l s)) hcol1 (fun col hc hca =>
          (colUsage_swap_ne g l s hc (fun h => hca h.symm)
            (fun h => hca (hcc ▸ h.symm))).symm)
    have hfsArr : (((List.range 8).map (colFspeed g l)).set (iToCol s.1)
          (colFspeed g (swapPairNoBounds l s) (iToCol s.1)))
        = (List.range 8).map (colFspeed g (swapPairNoBounds l s)) :=
      set1_map_range_eq _ _ hcol1 (fun col hc hca =>
        (colFspeed_swap_ne g l s hsl hc (fun h => hca h.symm)
          (fun h => hca (hcc ▸ h.symm))).symm)
    have hfsTot : ((List.range 8).map (colFspeed g l)).sum
        - ((List.range 8).map (colFspeed g l)).getD (iToCol s.1) 0
        + colFspeed g (swapPairNoBounds l s) (iToCol s.1)
        = ((List.range 8).map (colFspeed g (swapPairNoBounds l s))).sum := by
      rw [getD_map_range hcol1]
      exact @listSum_update1 8 (iToCol s.1) (colFspeed g l)
        (colFspeed g (swapPairNoBounds l s)) hcol1 (fun col hc hca =>
          (colFspeed_swap_ne g l s hsl hc (fun h => hca h.symm)
            (fun h => hca (hcc ▸ h.symm))).symm)
    exact ⟨rfl, heffArr, heffTot, rfl, husArr, husTot, hfsArr, hfsTot, htri⟩
  · rw [Prod.mk.injEq, LayoutCache.mk.injEq]
    have husArr : ((((List.range 8).map (colUsage g l)).set (iToCol s.1)
          (colUsage g (swapPairNoBounds l s) (iToCol s.1))).set (iToCol s.2)
            (colUsage g (swapPairNoBounds l s) (iToCol s.2)))
        = (List.range 8).map (colUsage g (swapPairNoBounds l s)) :=
      set2_map_range_eq _ _ hcol1 hcol2 (fun col hc hca hcb =>
        (colUsage_swap_ne g l s hc (fun h => hca h.symm) (fun h => hcb h.symm)).symm)
    have husTot : ((List.range 8).map (colUsage g l)).sum
        - ((List.range 8).map (colUsage g l)).getD (iToCol s.1) 0
        - ((List.range 8).map (colUsage g l)).getD (iToCol s.2) 0
        + colUsage g (swapPairNoBounds l s) (iToCol s.1)
        + colUsage g (swapPairNoBounds l s) (iToCol s.2)
        = ((List.range 8).map (colUsage g (swapPairNoBounds l s))).sum := by
      rw [getD_map_range hcol1, getD_map_range hcol2]
      exact @listSum_update2 8 (iToCol s.1) (iToCol s.2) (colUsage g l)
        (colUsage g (swapPairNoBounds l s)) hcol1 hcol2 hcc (fun col hc hca hcb =>
          (colUsage_swap_ne g l s hc (fun h => hca h.symm) (fun h => hcb h.symm)).symm)
    have hfsArr : ((((List.range 8).map (colFspeed g l)).set (iToCol s.1)
          (colFspeed g (swapPairNoBounds l s) (iToCol s.1))).set (iToCol s.2)
            (colFspeed g (swapPairNoBounds l s) (iToCol s.2)))
        = (List.range 8).map (colFspeed g (swapPairNoBounds l s)) :=
      set2_map_range_eq _ _ hcol1 hcol2 (fun col hc hca hcb =>
        (colFspeed_swap_ne g l s hsl hc (fun h => hca h.symm) (fun h => hcb h.symm)).symm)
    have hfsTot : ((List.range 8).map (colFspeed g l)).sum
        - ((List.range 8).map (colFspeed g l)).getD (iToCol s.1) 0
        - ((List.range 8).map (colFspeed g l)).getD (iToCol s.2) 0
        + colFspeed g (swapPairNoBounds l s) (iToCol s.1)
        + colFspeed g (swapPairNoBounds l s) (iToCol s.2)
        = ((List.range 8).map (colFspeed g (swapPairNoBounds l s))).sum := by
      rw [getD_map_range hcol1, getD_map_range hcol2]
      exact @listSum_update2 8 (iToCol s.1) (iToCol s.2) (colFspeed g l)
        (colFspeed g (swapPairNoBounds l s)) hcol1 hcol2 hcc (fun col hc hca hcb =>
          (colFspeed_swap_ne g l s hsl hc (fun h => hca h.symm) (fun h => hcb h.symm)).symm)
    exact ⟨rfl, heffArr, heffTot, rfl, husArr, husTot, hfsArr, hfsTot, htri⟩
  · rw [Prod.mk.injEq, LayoutCache.mk.injEq]
    have husArr : (((List.range 8).map (colUsage g l)).set (iToCol s.1)
          (colUsage g (swapPairNoBounds l s) (iToCol s.1)))
        = (List.range 8).map (colUsage g (swapPairNoBounds l s)) :=
      set1_map_range_eq _ _ hcol1 (fun col hc hca =>
        (colUsage_swap_ne g l s hc (fun h => hca h.symm)
          (fun h => hca (hcc2 ▸ h.symm))).symm)
    have husTot : ((List.range 8).map (colUsage g l)).sum
        - ((List.range 8).map (colUsage g l)).getD (iToCol s.1) 0
        + colUsage g (swapPairNoBounds l s) (iToCol s.1)
        = ((List.range 8).map (colUsage g (swapPairNoBounds l s))).sum := by
      rw [getD_map_range hcol1]
      exact @listSum_update1 8 (iToCol s.1) (colUsage g l)
        (colUsage g (swapPairNoBounds l s)) hcol1 (fun col hc hca =>
          (colUsage_swap_ne g l s hc (fun h => hca h.symm)
            (fun h => hca (hcc2 ▸ h.symm))).symm)
    have hfsArr : (((List.range 8).map (colFspeed g l)).set (iToCol s.1)
          (colFspeed g (swapPairNoBounds l s) (iToCol s.1)))
        = (List.range 8).map (colFspeed g (swapPairNoBounds l s)) :=
      set1_map_range_eq _ _ hcol1 (fun col hc hca =>
        (colFspeed_swap_ne g l s hsl hc (fun h => hca h.symm)
          (fun h => hca (hcc2 ▸ h.symm))).symm)
    have hfsTot : ((List.range 8).map (colFspeed g l)).sum
        - ((List.range 8).map (colFspeed g l)).getD (iToCol s.1) 0
        + colFspeed g (swapPairNoBounds l s) (iToCol s.1)
        = ((List.range 8).map (colFspeed g (swapPairNoBounds l s))).sum := by
      rw [getD_map_range hcol1]
      exact @listSum_update1 8 (iToCol s.1) (colFspeed g l)
        (colFspeed g (swapPairNoBounds l s)) hcol1 (fun col hc hca =>
          (colFspeed_swap_ne g l s hsl hc (fun h => hca h.symm)
            (fun h => hca (hcc2 ▸ h.symm))).symm)
    exact ⟨rfl, heffArr, heffTot,
      (scissorScore_swap_not_affects g l s (by simpa using hsc)).symm,
      husArr, husTot, hfsArr, hfsTot, htri⟩
  · rw [Prod.mk.injEq, LayoutCache.mk.injEq]
    have husArr : ((((List.range 8).map (colUsage g l)).set (iToCol s.1)
          (colUsage g (swapPairNoBounds l s) (iToCol s.1))).set (iToCol s.2)
            (colUsage g (swapPairNoBounds l s) (iToCol s.2)))
        = (List.range 8).map (colUsage g (swapPairNoBounds l s)) :=
      set2_map_range_eq _ _ hcol1 hcol2 (fun col hc hca hcb =>
        (colUsage_swap_ne g l s hc (fun h => hca h.symm) (fun h => hcb h.symm)).symm)
    have husTot : ((List.range 8).map (colUsage g l)).sum
        - ((List.range 8).map (colUsage g l)).getD (iToCol s.1) 0
        - ((List.range 8).map (colUsage g l)).getD (iToCol s.2) 0
        + colUsage g (swapPairNoBounds l s) (iToCol s.1)
        + colUsage g (swapPairNoBounds l s) (iToCol s.2)
        = ((List.range 8).map (colUsage g (swapPairNoBounds l s))).sum := by
      rw [getD_map_range hcol1, getD_map_range hcol2]
      exact @listSum_update2 8 (iToCol s.1) (iToCol s.2) (colUsage g l)
        (colUsage g (swapPairNoBounds l s)) hcol1 hcol2 hcc2 (fun col hc hca hcb =>
          (colUsage_swap_ne g l s hc (fun h => hca h.symm) (fun h => hcb h.symm)).symm)
    have hfsArr : ((((List.range 8).map (colFspeed g l)).set (iToCol s.1)
          (colFspeed g (swapPairNoBounds l s) (iToCol s.1))).set (iToCol s.2)
            (colFspeed g (swapPairNoBounds l s) (iToCol s.2)))
        = (List.range 8).map (colFspeed g (swapPairNoBounds l s)) :=
      set2_map_range_eq _ _ hcol1 hcol2 (fun col hc hca hcb =>
        (colFspeed_swap_ne g l s hsl hc (fun h => hca h.symm) (fun h => hcb h.symm)).symm)
    have hfsTot : ((List.range 8).map (colFspeed g l)).sum
        - ((List.range 8).map (colFspeed g l)).getD (iToCol s.1) 0
        - ((List.range 8).map (colFspeed g l)).getD (iToCol s.2) 0
        + colFspeed g (swapPairNoBounds l s) (iToCol s.1)
        + colFspeed g (swapPairNoBounds l s) (iToCol s.2)
        = ((List.range 8).map (colFspeed g (swapPairNoBounds l s))).sum := by
      rw [getD_map_range hcol1, getD_map_range hcol2]
      exact @listSum_update2 8 (iToCol s.1) (iToCol s.2) (colFspeed g l)
        (colFspeed g (swapPairNoBounds l s)) hcol1 hcol2 hcc2 (fun col hc hca hcb =>
          (colFspeed_swap_ne g l s hsl hc (fun h => hca h.symm) (fun h => hcb h.symm)).symm)
    exact ⟨rfl, heffArr, heffTot,
      (scissorScore_swap_not_affects g l s (by simpa using hsc)).symm,
      husArr, husTot, hfsArr, hfsTot, htri⟩

theorem possibleSwaps_spec : ∀ s ∈ possibleSwaps, s.1 < 30 ∧ s.2 < 30 ∧ s.1 ≠ s.2 := by decide

theorem foldl_acceptSwap_canon (g : LayoutGeneration) (l0 : FastLayout)
    (hcov : trigCovered g) (hsl : fspeedSliceOk g) :
    ∀ (swaps : List (ℕ × ℕ)) (l : FastLayout), (∀ s ∈ swaps, s ∈ possibleSwaps) →
      l.matrix.length = 30 →
      (swaps.foldl (fun p s => acceptSwap g p.1 s p.2) (l, canonCache g l0 l)).2
          = canonCache g l0
            ((swaps.foldl (fun p s => acceptSwap g p.1 s p.2) (l, canonCache g l0 l)).1)
        ∧ (swaps.foldl (fun p s => acceptSwap g p.1 s p.2)
            (l, canonCache g l0 l)).1.matrix.length = 30 := by
  intro swaps
  induction swaps with
  | nil => intro l _ hlen; exact ⟨rfl, hlen⟩
  | cons s t ih =>
    intro l hs hlen
    obtain ⟨hs1, hs2, hsne⟩ := possibleSwaps_spec s (hs s (List.mem_cons_self s t))
    have hstep := acceptSwap_canon g l0 l s hcov hsl hs1 hs2 hsne hlen
    simp only [List.foldl_cons]
    rw [hstep]
    exact ih (swapPairNoBounds l s) (fun x hx => hs x (List.mem_cons_of_mem s hx))
      ((swap_matrix_length l s).trans hlen)

theorem canon_totalScore_eq_score (g : LayoutGeneration) (l0 L : FastLayout)
    (hprec : g.data.trigrams.length ≤ g.precision) (hlen : L.matrix.length = 30) :
    (canonCache g l0 L).totalScore = score g L := by
  have htake : g.data.trigrams.take g.precision = g.data.trigrams :=
    List.take_of_length_le hprec
  unfold canonCache LayoutCache.totalScore score
  dsimp only
  rw [htake, hlen, listSum_add, listSum_map_range, listSum_map_range, listSum_map_range]
  ring

/-- Claim C1: for a cache built by initialize_cache and any sequence of
POSSIBLE_SWAPS swaps applied through accept_swap, the cache total equals a
fresh full score of the resulting layout within 1e-7 - amended: this holds
when the trigram_precision the LayoutGeneration was built with covers the
whole trigram list, so that the truncated per-character trigram lists seen
by the incremental updates agree with the full list used by score; the
totals then agree exactly.  (The unamended claim, with the precision
unconstrained, is refuted by c1_counterexample.) -/
theorem c1_cache_total_matches_score (g : LayoutGeneration) (l0 : FastLayout)
    (swaps : List (ℕ × ℕ)) (hswaps : ∀ s ∈ swaps, s ∈ possibleSwaps)
    (hcov : trigCovered g) (hsl : fspeedSliceOk g) (hlen : l0.matrix.length = 30)
    (hprec : g.data.trigrams.length ≤ g.precision) :
    |(swaps.foldl (fun p s => acceptSwap g p.1 s p.2) (l0, initCache g l0)).2.totalScore
      - score g (swaps.foldl (fun p s => acceptSwap g p.1 s p.2)
          (l0, initCache g l0)).1| ≤ 1 / 10000000 := by
  rw [initCache_eq_canon]
  obtain ⟨hcanon, hlen2⟩ := foldl_acceptSwap_canon g l0 hcov hsl swaps l0 hswaps hlen
  rw [hcanon, canon_totalScore_eq_score g l0 _ hprec hlen2]
  simp

/-- Counterexample to claim C1 as stated: with trigram_precision 0 the
per-character trigram lists are empty, so accept_swap leaves the cache
trigram total at its full-list initial value while the fresh score moves;
after the single POSSIBLE_SWAPS swap (0, 9) the cache total and the fresh
score differ by 1, far beyond the 1e-7 tolerance. -/
theorem c1_counterexample :
    (0, 9) ∈ possibleSwaps
      ∧ ¬ (|(acceptSwap genC1 layoutId (0, 9) (initCache genC1 layoutId)).2.totalScore
          - score genC1 (acceptSwap genC1 layoutId (0, 9)
            (initCache genC1 layoutId)).1| ≤ 1 / 10000000) := by
  refine ⟨by decide, fun hcon => ?_⟩
  have hx : (acceptSwap genC1 layoutId (0, 9) (initCache genC1 layoutId)).2.totalScore
      - score genC1 (acceptSwap genC1 layoutId (0, 9) (initCache genC1 layoutId)).1
      = 1 := by
    with_unfolding_all decide
  rw [hx] at hcon
  norm_num at hcon

/-- Witness for c1_cache_total_matches_score: the hypotheses hold at the
concrete witness generation and the identity layout with the single swap
(0, 9). -/
theorem c1_witness :
    ((∀ s ∈ [((0, 9) : ℕ × ℕ)], s ∈ possibleSwaps) ∧ trigCovered genW
        ∧ fspeedSliceOk genW ∧ layoutId.matrix.length = 30
        ∧ genW.data.trigrams.length ≤ genW.precision)
      ∧ |([((0, 9) : ℕ × ℕ)].foldl (fun p s => acceptSwap genW p.1 s p.2)
            (layoutId, initCache genW layoutId)).2.totalScore
          - score genW ([((0, 9) : ℕ × ℕ)].foldl (fun p s => acceptSwap genW p.1 s p.2)
            (layoutId, initCache genW layoutId)).1| ≤ 1 / 10000000 :=
  ⟨⟨by decide, by unfold trigCovered; decide, by unfold fspeedSliceOk; decide,
      by decide, by decide⟩,
    c1_cache_total_matches_score genW layoutId [(0, 9)] (by decide)
      (by unfold trigCovered; decide) (by unfold fspeedSliceOk; decide)
      (by decide) (by decide)⟩

/-- Claim C2: for a cache consistent with the layout, score_swap_cached
returns the value total_score has after accept_swap commits the same swap
from the same starting state.  In the rational model the two are exactly
equal, because both perform the same arithmetic; the 1e-7 tolerance of
the claim is subsumed by equality. -/
theorem c2_score_swap_agreement (g : LayoutGeneration) (l : FastLayout) (s : ℕ × ℕ)
    (cache : LayoutCache) (hc : cacheConsistent g l cache) :
    scoreSwapCached g l s cache = ((acceptSwap g l s cache).2).totalScore :=
  scoreSwap_eq_accept g l s cache

/-- Witness for c2_score_swap_agreement at the witness generation, the
identity layout, the swap (0, 9) and the cache built by initialize_cache. -/
theorem c2_witness :
    cacheConsistent genW layoutId (initCache genW layoutId)
      ∧ scoreSwapCached genW layoutId (0, 9) (initCache genW layoutId)
        = ((acceptSwap genW layoutId (0, 9) (initCache genW layoutId)).2).totalScore :=
  ⟨rfl, c2_score_swap_agreement genW layoutId (0, 9) (initCache genW layoutId) rfl⟩

/-- Claim C5: for two distinct characters at the swap positions,
trigram_char_score is the weighted trigram score summed over exactly the
stored per-character trigrams containing either character, each trigram
counted once - the sum over the truncated trigram list filtered to the
trigrams containing one of the two characters. -/
theorem c5_trigram_char_score_union (g : LayoutGeneration) (l : FastLayout) (s : ℕ × ℕ)
    (hcov : trigCovered g) (hne : l.c s.1 ≠ l.c s.2)
    (hm1 : l.c s.1 ∈ g.possibleChars) (hm2 : l.c s.2 ∈ g.possibleChars) :
    trigramCharScore g l s = trigramScoreIter g l
      ((g.data.trigrams.take g.precision).filter
        (fun tf => trigramContains (l.c s.1) tf.1 || trigramContains (l.c s.2) tf.1)) :=
  tcs_eq_filter g l s hcov

/-- Witness for c5_trigram_char_score_union at the witness generation,
the identity layout and the positions 0 and 9. -/
theorem c5_witness :
    (trigCovered genW ∧ layoutId.c 0 ≠ layoutId.c 9
        ∧ layoutId.c 0 ∈ genW.possibleChars ∧ layoutId.c 9 ∈ genW.possibleChars)
      ∧ trigramCharScore genW layoutId (0, 9) = trigramScoreIter genW layoutId
        ((genW.data.trigrams.take genW.precision).filter
          (fun tf => trigramContains (layoutId.c 0) tf.1
            || trigramContains (layoutId.c 9) tf.1)) :=
  ⟨⟨by unfold trigCovered; decide, by decide, by decide, by decide⟩,
    c5_trigram_char_score_union genW layoutId (0, 9) (by unfold trigCovered; decide)
      (by decide) (by decide) (by decide)⟩

/-- Claim C6: the loaded trigram list is the input list with exactly the
entries removed whose first two ids are equal or whose last two ids are
equal; the survivors keep the input order, which the filter form makes
explicit. -/
theorem c6_trigram_load_filters (xs : List ((ℕ × ℕ × ℕ) × ℚ)) :
    getTrigramData xs
      = xs.filter (fun tf =>
          !(decide (tf.1.1 = tf.1.2.1) || decide (tf.1.2.1 = tf.1.2.2))) := by
  induction xs with
  | nil => rfl
  | cons tf t ih =>
    by_cases h1 : tf.1.1 = tf.1.2.1 <;> by_cases h2 : tf.1.2.1 = tf.1.2.2 <;>
      simp [getTrigramData, List.filter_cons, h1, h2, ih]

/-- Claim C7 (amended): the analyze.rs load_layouts sorts the registry by
score descending, but the generate.rs load_layouts sorts it ascending
(its comparator is a.score against b.score), so adjacent entries satisfy
earlier at most later there.  (The claim of a descending registry is
refuted on the generate.rs path by c7_counterexample.) -/
theorem c7_registry_sort_orders :
    (∀ xs : List (String × ℚ),
        (loadLayoutsOrderAnalyze xs).Pairwise (fun a b => b.2 ≤ a.2))
      ∧ (∀ xs : List (String × ℚ),
        (loadLayoutsOrderGen xs).Pairwise (fun a b => a.2 ≤ b.2)) := by
  constructor
  · intro xs
    haveI : IsTotal (String × ℚ) (fun a b => b.2 ≤ a.2) := ⟨fun a b => le_total b.2 a.2⟩
    haveI : IsTrans (String × ℚ) (fun a b => b.2 ≤ a.2) :=
      ⟨fun _ _ _ hab hbc => le_trans hbc hab⟩
    exact List.sorted_insertionSort (fun a b => b.2 ≤ a.2) xs
  · intro xs
    haveI : IsTotal (String × ℚ) (fun a b : String × ℚ => a.2 ≤ b.2) :=
      ⟨fun a b => le_total a.2 b.2⟩
    haveI : IsTrans (String × ℚ) (fun a b : String × ℚ => a.2 ≤ b.2) :=
      ⟨fun _ _ _ hab hbc => le_trans hab hbc⟩
    exact List.sorted_insertionSort (fun a b => a.2 ≤ b.2) xs

/-- Counterexample to claim C7 as stated: the generate.rs registry sort
leaves a two-layout registry in ascending order, so the adjacent pair
violates score descending. -/
theorem c7_counterexample :
    ¬ ((loadLayoutsOrderGen [("a", 2), ("b", 1)]).Pairwise
        (fun p q => q.2 ≤ p.2)) := by
  intro hp
  have h : loadLayoutsOrderGen [("a", 2), ("b", 1)] = [("b", 1), ("a", 2)] := by
    with_unfolding_all decide
  rw [h] at hp
  have h2 := List.rel_of_pairwise_cons hp (List.mem_singleton.mpr rfl)
  norm_num at h2

theorem tryNames_spec (known : List (List Char)) (pre : List Char) :
    ∀ (k i : ℕ) (n : List Char), tryNames known pre i k = some n →
      ∃ m, i ≤ m ∧ m < i + k ∧ n = pre ++ (Nat.repr m).data ∧ n ∉ known
        ∧ ∀ j, i ≤ j → j < m → (pre ++ (Nat.repr j).data) ∈ known := by
  intro k
  induction k with
  | zero => intro i n h; simp [tryNames] at h
  | succ k ih =>
    intro i n h
    unfold tryNames at h
    by_cases hmem : (pre ++ (Nat.repr i).data) ∈ known
    · rw [if_pos hmem] at h
      obtain ⟨m, hm1, hm2, hm3, hm4, hm5⟩ := ih (i + 1) n h
      refine ⟨m, by omega, by omega, hm3, hm4, fun j hj1 hj2 => ?_⟩
      by_cases hji : j = i
      · rw [hji]; exact hmem
      · exact hm5 j (by omega) hj2
    · rw [if_neg hmem] at h
      obtain rfl : pre ++ (Nat.repr i).data = n := Option.some.inj h
      exact ⟨i, le_refl i, by omega, rfl, hmem, fun j hj1 hj2 => absurd hj1 (by omega)⟩

/-- Claim C8 (amended): when save is called with no name, the chosen name
is built from the characters at matrix positions 10 to 13 - the home-row
LEFT hand, not the right hand as the claim states - followed by the
smallest positive integer that makes the name distinct from every known
layout name.  (The home-row-right reading is refuted by
c8_counterexample.) -/
theorem c8_save_placeholder_name (known : List (List Char)) (matrix : List Char)
    (n : List Char) (h : saveName none known matrix = some n) :
    ∃ m, 1 ≤ m ∧ m < 1000 ∧ n = (matrix.drop 10).take 4 ++ (Nat.repr m).data
      ∧ n ∉ known
      ∧ ∀ j, 1 ≤ j → j < m → ((matrix.drop 10).take 4 ++ (Nat.repr j).data) ∈ known := by
  unfold saveName placeholderName at h
  obtain ⟨m, hm1, hm2, hm3, hm4, hm5⟩ := tryNames_spec known _ 999 1 n h
  exact ⟨m, hm1, by omega, hm3, hm4, hm5⟩

/-- Counterexample to claim C8 as stated: on the QWERTY layout with no
known layouts, save with no name chooses asdf1, built from the home-row
left-hand characters at positions 10 to 13, not jkl;1 from the home-row
right hand as the spec example requires. -/
theorem c8_counterexample :
    saveName none [] qwertyChars = some ('a' :: 's' :: 'd' :: 'f' :: '1' :: [])
      ∧ ('a' :: 's' :: 'd' :: 'f' :: '1' :: [])
        ≠ ('j' :: 'k' :: 'l' :: ';' :: '1' :: ([] : List Char)) := by
  exact ⟨by decide, by decide⟩

/-- Witness for c8_save_placeholder_name: saving the QWERTY layout with
suffix 1 taken. -/
theorem c8_witness :
    saveName none [('a' :: 's' :: 'd' :: 'f' :: '1' :: [])] qwertyChars
        = some ('a' :: 's' :: 'd' :: 'f' :: '2' :: [])
      ∧ ∃ m, 1 ≤ m ∧ m < 1000
        ∧ ('a' :: 's' :: 'd' :: 'f' :: '2' :: [])
          = (qwertyChars.drop 10).take 4 ++ (Nat.repr m).data
        ∧ ('a' :: 's' :: 'd' :: 'f' :: '2' :: [])
          ∉ [('a' :: 's' :: 'd' :: 'f' :: '1' :: [])]
        ∧ ∀ j, 1 ≤ j → j < m →
          ((qwertyChars.drop 10).take 4 ++ (Nat.repr j).data)
            ∈ [('a' :: 's' :: 'd' :: 'f' :: '1' :: [])] :=
  ⟨by decide,
    c8_save_placeholder_name [('a' :: 's' :: 'd' :: 'f' :: '1' :: [])] qwertyChars
      ('a' :: 's' :: 'd' :: 'f' :: '2' :: []) (by decide)⟩

/-- Claim C9 (amended): in the generate.rs load_layouts, every file whose
contents fail to parse is skipped and loading continues: the collected
registry is exactly the parseable files in encounter order, for every
parser and file list.  (The analyze.rs load_layouts instead unwraps the
parse result and panics on the first malformed file, refuting the claim
there: c9_counterexample.) -/
theorem c9_load_layouts_skips {α β : Type} (parse : α → Option β)
    (files : List (String × α)) :
    loadCollectGen parse files
      = files.filterMap (fun nc => (parse nc.2).map (fun lay => (nc.1, lay))) := by
  suffices h : ∀ (fs : List (String × α)) (acc : List (String × β)),
      fs.foldl (fun acc nc =>
        match parse nc.2 with
        | some lay => acc ++ [(nc.1, lay)]
        | none => acc) acc
      = acc ++ fs.filterMap (fun nc => (parse nc.2).map (fun lay => (nc.1, lay))) by
    have h2 := h files []
    simpa [loadCollectGen] using h2
  intro fs
  induction fs with
  | nil => intro acc; simp
  | cons nc t ih =>
    intro acc
    cases hp : parse nc.2 <;>
      simp [List.filterMap_cons, hp, ih, List.append_assoc]

/-- Counterexample to claim C9 as stated: the analyze.rs load_layouts
panics (modelled as none) when one of two files is malformed, while the
generate.rs version skips it and keeps the good file. -/
theorem c9_counterexample :
    loadCollectAnalyze (fun x : ℕ => if x = 0 then some 0 else none)
        [("good", 0), ("bad", 1)] = none
      ∧ loadCollectGen (fun x : ℕ => if x = 0 then some 0 else none)
        [("good", 0), ("bad", 1)] = [("good", 0)] := by
  exact ⟨by decide, by decide⟩

theorem getQ_eq_zero_of_absent {α : Type} [DecidableEq α] (tbl : List (α × ℚ)) (k : α)
    (h : hasKey tbl k = false) : getQ tbl k = 0 := by
  induction tbl with
  | nil => rfl
  | cons p t ih =>
    simp only [hasKey, List.any_cons, Bool.or_eq_false_iff, decide_eq_false_iff_not] at h
    simp only [hasKey] at ih
    unfold getQ
    rcases p with ⟨pk, pv⟩
    rw [if_neg (fun hc => h.1 hc.symm)]
    exact ih h.2

theorem getQ_cons_zero {α : Type} [DecidableEq α] (tbl : List (α × ℚ)) (k : α)
    (h : hasKey tbl k = false) (c : α) : getQ ((k, 0) :: tbl) c = getQ tbl c := by
  show (if c = k then (0 : ℚ) else getQ tbl c) = getQ tbl c
  by_cases hc : c = k
  · rw [if_pos hc, hc, getQ_eq_zero_of_absent tbl k h]
  · rw [if_neg hc]

theorem charEffort_extend (g : LayoutGeneration) (kc : ℕ) (kb ks ks2 ks3 : ℕ × ℕ)
    (l : FastLayout) (i : ℕ) (h1 : hasKey g.data.characters kc = false) :
    charEffort (extendTables g kc kb ks ks2 ks3) l i = charEffort g l i := by
  simp only [charEffort, extendTables, getQ_cons_zero _ _ h1]

theorem colUsage_extend (g : LayoutGeneration) (kc : ℕ) (kb ks ks2 ks3 : ℕ × ℕ)
    (l : FastLayout) (col : ℕ) (h1 : hasKey g.data.characters kc = false) :
    colUsage (extendTables g kc kb ks ks2 ks3) l col = colUsage g l col := by
  simp only [colUsage, extendTables, getQ_cons_zero _ _ h1]

theorem colFspeed_extend (g : LayoutGeneration) (kc : ℕ) (kb ks ks2 ks3 : ℕ × ℕ)
    (l : FastLayout) (col : ℕ) (h2 : hasKey g.data.bigrams kb = false)
    (h3 : hasKey g.data.skipgrams ks = false) (h4 : hasKey g.data.skipgrams2 ks2 = false)
    (h5 : hasKey g.data.skipgrams3 ks3 = false) :
    colFspeed (extendTables g kc kb ks ks2 ks3) l col = colFspeed g l col := by
  simp only [colFspeed, fspeedSlice, extendTables, getQ_cons_zero _ _ h2,
    getQ_cons_zero _ _ h3, getQ_cons_zero _ _ h4, getQ_cons_zero _ _ h5]

theorem scissorScore_extend (g : LayoutGeneration) (kc : ℕ) (kb ks ks2 ks3 : ℕ × ℕ)
    (l : FastLayout) (h2 : hasKey g.data.bigrams kb = false) :
    scissorScore (extendTables g kc kb ks ks2 ks3) l = scissorScore g l := by
  simp only [scissorScore, extendTables, getQ_cons_zero _ _ h2]

theorem bigramPercent_extend (g : LayoutGeneration) (kc : ℕ) (kb ks ks2 ks3 : ℕ × ℕ)
    (l : FastLayout) (bt : String) (h3 : hasKey g.data.skipgrams ks = false) :
    bigramPercent (extendTables g kc kb ks ks2 ks3) l bt = bigramPercent g l bt := by
  unfold bigramPercent extendTables
  dsimp only
  split_ifs <;> simp [getQ_cons_zero _ _ h3]

theorem trigramScoreIter_extend (g : LayoutGeneration) (kc : ℕ) (kb ks ks2 ks3 : ℕ × ℕ)
    (l : FastLayout) (ts : List ((ℕ × ℕ × ℕ) × ℚ)) :
    trigramScoreIter (extendTables g kc kb ks ks2 ks3) l ts = trigramScoreIter g l ts := rfl

theorem score_extend (g : LayoutGeneration) (kc : ℕ) (kb ks ks2 ks3 : ℕ × ℕ)
    (l : FastLayout) (h1 : hasKey g.data.characters kc = false)
    (h2 : hasKey g.data.bigrams kb = false) (h3 : hasKey g.data.skipgrams ks = false)
    (h4 : hasKey g.data.skipgrams2 ks2 = false)
    (h5 : hasKey g.data.skipgrams3 ks3 = false) :
    score (extendTables g kc kb ks ks2 ks3) l = score g l := by
  have hm : trigramScoreIter (extendTables g kc kb ks ks2 ks3) l
      (extendTables g kc kb ks ks2 ks3).data.trigrams
        = trigramScoreIter g l g.data.trigrams := rfl
  have he : listSum l.matrix.length (charEffort (extendTables g kc kb ks ks2 ks3) l)
      = listSum l.matrix.length (charEffort g l) :=
    listSum_congr (fun i _ => charEffort_extend g kc kb ks ks2 ks3 l i h1)
  have hf : listSum 8 (fun col => colUsage (extendTables g kc kb ks ks2 ks3) l col
        + colFspeed (extendTables g kc kb ks ks2 ks3) l col)
      = listSum 8 (fun col => colUsage g l col + colFspeed g l col) :=
    listSum_congr (fun col _ => by
      rw [colUsage_extend g kc kb ks ks2 ks3 l col h1,
        colFspeed_extend g kc kb ks ks2 ks3 l col h2 h3 h4 h5])
  unfold score
  dsimp only
  rw [hm, he, hf, scissorScore_extend g kc kb ks ks2 ks3 l h2]

/-- Claim C10: every scoring operation is total over any layout and
language model - in this embedding each operation is a total function,
mirroring the unwrap_or(0.0) lookups of the source - and a character or
n-gram key absent from the frequency tables contributes exactly 0: adding
the absent key with frequency 0 to the tables leaves score, char_effort,
col_usage, col_fspeed, scissor_score and bigram_percent unchanged. -/
theorem c10_absent_keys_contribute_zero (g : LayoutGeneration) (kc : ℕ)
    (kb ks ks2 ks3 : ℕ × ℕ) (l : FastLayout) (i col : ℕ) (bt : String)
    (h1 : hasKey g.data.characters kc = false)
    (h2 : hasKey g.data.bigrams kb = false)
    (h3 : hasKey g.data.skipgrams ks = false)
    (h4 : hasKey g.data.skipgrams2 ks2 = false)
    (h5 : hasKey g.data.skipgrams3 ks3 = false) :
    charEffort (extendTables g kc kb ks ks2 ks3) l i = charEffort g l i
      ∧ colUsage (extendTables g kc kb ks ks2 ks3) l col = colUsage g l col
      ∧ colFspeed (extendTables g kc kb ks ks2 ks3) l col = colFspeed g l col
      ∧ scissorScore (extendTables g kc kb ks ks2 ks3) l = scissorScore g l
      ∧ bigramPercent (extendTables g kc kb ks ks2 ks3) l bt = bigramPercent g l bt
      ∧ score (extendTables g kc kb ks ks2 ks3) l = score g l :=
  ⟨charEffort_extend g kc kb ks ks2 ks3 l i h1,
    colUsage_extend g kc kb ks ks2 ks3 l col h1,
    colFspeed_extend g kc kb ks ks2 ks3 l col h2 h3 h4 h5,
    scissorScore_extend g kc kb ks ks2 ks3 l h2,
    bigramPercent_extend g kc kb ks ks2 ks3 l bt h3,
    score_extend g kc kb ks ks2 ks3 l h1 h2 h3 h4 h5⟩

/-- Witness for c10_absent_keys_contribute_zero: fresh keys absent from
every table of the witness model. -/
theorem c10_witness :
    (hasKey genW.data.characters 99 = false
        ∧ hasKey genW.data.bigrams (99, 99) = false
        ∧ hasKey genW.data.skipgrams (99, 99) = false
        ∧ hasKey genW.data.skipgrams2 (99, 99) = false
        ∧ hasKey genW.data.skipgrams3 (99, 99) = false)
      ∧ score (extendTables genW 99 (99, 99) (99, 99) (99, 99) (99, 99)) layoutId
        = score genW layoutId :=
  ⟨⟨by decide, by decide, by decide, by decide, by decide⟩,
    (c10_absent_keys_contribute_zero genW 99 (99, 99) (99, 99) (99, 99) (99, 99)
      layoutId 0 0 "sfb" (by decide) (by decide) (by decide) (by decide)
      (by decide)).2.2.2.2.2⟩

/-- Claim C3, code behaviour at the failing input: every recognised name
passed to bigram_percent of generate.rs selects the skipgrams table (all
four families return the skipgram sum 5 on the C3 model), while the
spec-mandated selection returns the bigrams, skipgrams2 and skipgrams3
sums 3, 7 and 11; and get_layout_stats panics (modelled none), because it
asks bigram_percent for the name skipgrams, which no arm matches. -/
theorem c3_bigram_percent_code_bug :
    bigramPercent genC3 layoutId "sfb" = some 5
      ∧ bigramPercent genC3 layoutId "sfbs" = some 5
      ∧ bigramPercent genC3 layoutId "dsfb2" = some 5
      ∧ bigramPercent genC3 layoutId "dsfb3" = some 5
      ∧ bigramPercentSpec genC3 layoutId "sfb" = some 3
      ∧ bigramPercentSpec genC3 layoutId "dsfb2" = some 7
      ∧ bigramPercentSpec genC3 layoutId "dsfb3" = some 11
      ∧ bigramPercent genC3 layoutId "sfb" ≠ bigramPercentSpec genC3 layoutId "sfb"
      ∧ getLayoutStats genC3 layoutId = none := by
  refine ⟨?_, ?_, ?_, ?_, ?_, ?_, ?_, ?_, ?_⟩ <;> with_unfolding_all decide

theorem getD_set_zero (xs : List ℚ) (j : ℕ) (h : ∀ i, xs.getD i 0 = 0) (i : ℕ) :
    (xs.set j 0).getD i 0 = 0 := by
  by_cases hij : j = i
  · subst hij
    by_cases hlt : j < xs.length
    · rw [getD_set_eq xs hlt]
    · rw [List.set_eq_of_length_le (le_of_not_lt hlt)]
      exact h j
  · rw [getD_set_ne xs hij]
    exact h i

theorem getD_zero_of_all_zero (xs : List ℚ) (h : ∀ x ∈ xs, x = 0) (i : ℕ) :
    xs.getD i 0 = 0 := by
  rw [List.getD_eq_getElem?_getD]
  cases hx : xs[i]? with
  | none => rfl
  | some v =>
    have hv : v ∈ xs := List.getElem?_mem hx
    simp [h v hv]

theorem charEffort_c4 (l : FastLayout) (i : ℕ) : charEffort genC4 l i = 0 := by
  unfold charEffort
  have h : genC4.effortMap i = 0 := rfl
  rw [h, mul_zero]

theorem colUsage_c4 (l : FastLayout) (col : ℕ) : colUsage genC4 l col = 0 := by
  unfold colUsage
  dsimp only
  have h : genC4.weights.maxFingerUse.penalty = 0 := rfl
  rw [h, zero_mul]

theorem colFspeed_c4 (l : FastLayout) (col : ℕ) : colFspeed genC4 l col = 0 := by
  unfold colFspeed fspeedSlice
  have h : genC4.fspeedVals = [] := rfl
  rw [h]
  simp

theorem scissorScore_c4 (l : FastLayout) : scissorScore genC4 l = 0 := by
  unfold scissorScore
  have h : genC4.scissorIndices = [] := rfl
  rw [h]
  simp

theorem affectsScissor_c4 (s : ℕ × ℕ) : affectsScissor genC4 s = false := rfl

theorem trigCovered_c4 : trigCovered genC4 := by
  unfold trigCovered
  decide

theorem tcs_c4_zero (l : FastLayout) (s : ℕ × ℕ)
    (h1 : trigramContains (l.c s.1) (13, 4, 16) = false)
    (h2 : trigramContains (l.c s.2) (13, 4, 16) = false) :
    trigramCharScore genC4 l s = 0 := by
  rw [tcs_eq_filter genC4 l s trigCovered_c4]
  have htake : genC4.data.trigrams.take genC4.precision = [((13, 4, 16), 1)] := rfl
  rw [htake]
  simp [List.filter, h1, h2, trigramScoreIter_nil]

theorem pSet_lt : ∀ p ∈ pSet, p < 30 := by decide

theorem cols_mem_pSet : ∀ i : ℕ, COLS.getD i 0 ∈ pSet := by
  intro i
  match i with
  | 0 => decide
  | 1 => decide
  | 2 => decide
  | 3 => decide
  | 4 => decide
  | 5 => decide
  | n + 6 =>
    rw [List.getD_eq_default]
    · decide
    · show COLS.length ≤ n + 6
      simp [COLS]

theorem foldl_pred {α β : Type} (Q : β → Prop) (f : β → α → β)
    (hstep : ∀ s i, Q s → Q (f s i)) : ∀ (xs : List α) (s : β), Q s → Q (xs.foldl f s) := by
  intro xs
  induction xs with
  | nil => intro s h; exact h
  | cons a t ih => intro s h; exact ih _ (hstep s a h)

theorem acceptSwap_c4inv (l : FastLayout) (c : LayoutCache) (pr : ℕ × ℕ)
    (hpr1 : pr.1 ∈ pSet) (hpr2 : pr.2 ∈ pSet) (hl : l.matrix.length = 30)
    (hav : ∀ p ∈ pSet, trigramContains (l.c p) (13, 4, 16) = false)
    (heff : ∀ i, c.effort.getD i 0 = 0) (hus : ∀ i, c.usage.getD i 0 = 0)
    (hfs : ∀ i, c.fspeed.getD i 0 = 0)
    (he : c.effortTotal = 0) (hu : c.usageTotal = 0) (hf : c.fspeedTotal = 0) :
    (acceptSwap genC4 l pr c).1.matrix.length = 30
      ∧ (∀ p ∈ pSet, trigramContains ((acceptSwap genC4 l pr c).1.c p) (13, 4, 16) = false)
      ∧ (∀ i, (acceptSwap genC4 l pr c).2.effort.getD i 0 = 0)
      ∧ (∀ i, (acceptSwap genC4 l pr c).2.usage.getD i 0 = 0)
      ∧ (∀ i, (acceptSwap genC4 l pr c).2.fspeed.getD i 0 = 0)
      ∧ (acceptSwap genC4 l pr c).2.effortTotal = 0
      ∧ (acceptSwap genC4 l pr c).2.usageTotal = 0
      ∧ (acceptSwap genC4 l pr c).2.fspeedTotal = 0
      ∧ (acceptSwap genC4 l pr c).2.scissors = c.scissors
      ∧ (acceptSwap genC4 l pr c).2.trigramsTotal = c.trigramsTotal := by
  have h1lt : pr.1 < l.matrix.length := by rw [hl]; exact pSet_lt pr.1 hpr1
  have h2lt : pr.2 < l.matrix.length := by rw [hl]; exact pSet_lt pr.2 hpr2
  have hl2a : trigramContains ((swapPairNoBounds l pr).c pr.1) (13, 4, 16) = false := by
    rw [swap_c_fst l pr h1lt]; exact hav pr.2 hpr2
  have hl2b : trigramContains ((swapPairNoBounds l pr).c pr.2) (13, 4, 16) = false := by
    rw [swap_c_snd l pr h2lt]; exact hav pr.1 hpr1
  have hav2 : ∀ p ∈ pSet, trigramContains ((swapPairNoBounds l pr).c p) (13, 4, 16) = false := by
    intro p hp
    by_cases hp2 : pr.2 = p
    · rw [← hp2]; exact hl2b
    · by_cases hp1 : pr.1 = p
      · rw [← hp1]; exact hl2a
      · rw [swap_c_ne l pr hp1 hp2]; exact hav p hp
  have htcs1 : trigramCharScore genC4 l pr = 0 :=
    tcs_c4_zero l pr (hav pr.1 hpr1) (hav pr.2 hpr2)
  have htcs2 : trigramCharScore genC4 (swapPairNoBounds l pr) pr = 0 :=
    tcs_c4_zero (swapPairNoBounds l pr) pr hl2a hl2b
  unfold acceptSwap
  dsimp only
  rw [htcs1, htcs2]
  simp only [charEffort_c4, colUsage_c4, colFspeed_c4, affectsScissor_c4,
    Bool.false_eq_true, if_false]
  split_ifs with hcc
  · exact ⟨by rw [swap_matrix_length]; exact hl, hav2,
      getD_set_zero _ _ (getD_set_zero _ _ heff),
      getD_set_zero _ _ hus,
      getD_set_zero _ _ hfs,
      by have h1 := heff pr.1; have h2 := heff pr.2;
         rw [List.getD_eq_getElem?_getD] at h1 h2; simp [he, h1, h2],
      by have h1 := hus (iToCol pr.1); have h2 := hus (iToCol pr.2);
         rw [List.getD_eq_getElem?_getD] at h1 h2; simp [hu, h1, h2],
      by have h1 := hfs (iToCol pr.1); have h2 := hfs (iToCol pr.2);
         rw [List.getD_eq_getElem?_getD] at h1 h2; simp [hf, h1, h2], trivial, by ring⟩
  · exact ⟨by rw [swap_matrix_length]; exact hl, hav2,
      getD_set_zero _ _ (getD_set_zero _ _ heff),
      getD_set_zero _ _ (getD_set_zero _ _ hus),
      getD_set_zero _ _ (getD_set_zero _ _ hfs),
      by have h1 := heff pr.1; have h2 := heff pr.2;
         rw [List.getD_eq_getElem?_getD] at h1 h2; simp [he, h1, h2],
      by have h1 := hus (iToCol pr.1); have h2 := hus (iToCol pr.2);
         rw [List.getD_eq_getElem?_getD] at h1 h2; simp [hu, h1, h2],
      by have h1 := hfs (iToCol pr.1); have h2 := hfs (iToCol pr.2);
         rw [List.getD_eq_getElem?_getD] at h1 h2; simp [hf, h1, h2], trivial, by ring⟩

theorem colPerms_c4inv : ∀ (k : ℕ) (st : ColPermState), c4ColInv st → st.bestScore = 3 →
    c4ColInv (colPerms genC4 k st) ∧ (colPerms genC4 k st).best = st.best
      ∧ (colPerms genC4 k st).bestScore = 3 := by
  intro k
  induction k using Nat.strong_induction_on with
  | _ k ih =>
    rcases k with _ | k
    · intro st hinv hbs
      exact ⟨hinv, rfl, hbs⟩
    rcases k with _ | n
    · intro st hinv hbs
      obtain ⟨hL, hA, hE, hU, hF, hET, hUT, hFT, hSC, hTR⟩ := hinv
      have ht : st.cache.totalScore = 3 := by
        unfold LayoutCache.totalScore
        rw [hTR, hSC, hET, hUT, hFT]
        norm_num
      have hcond : ¬ st.bestScore < st.cache.totalScore := by
        rw [hbs, ht]
        exact lt_irrefl 3
      simp only [colPerms]
      rw [if_neg hcond]
      exact ⟨⟨hL, hA, hE, hU, hF, hET, hUT, hFT, hSC, hTR⟩, rfl, hbs⟩
    · intro st hinv hbs
      simp only [colPerms]
      refine foldl_pred
        (fun s => c4ColInv s ∧ s.best = st.best ∧ s.bestScore = 3) _ ?_ _ st ⟨hinv, rfl, hbs⟩
      intro s i hQ
      obtain ⟨hs, hsb, hss⟩ := hQ
      dsimp only
      obtain ⟨h2inv, h2b, h2bs⟩ := ih (n + 1) (by omega) s hs hss
      obtain ⟨hL, hA, hE, hU, hF, hET, hUT, hFT, hSC, hTR⟩ := h2inv
      have hpr1 : (if (n + 2) % 2 = 0
          then (COLS.getD i 0, COLS.getD (n + 1) 0)
          else (COLS.getD 0 0, COLS.getD (n + 1) 0)).1 ∈ pSet := by
        split_ifs
        · show COLS.getD i 0 ∈ pSet; exact cols_mem_pSet i
        · show COLS.getD 0 0 ∈ pSet; exact cols_mem_pSet 0
      have hpr2 : (if (n + 2) % 2 = 0
          then (COLS.getD i 0, COLS.getD (n + 1) 0)
          else (COLS.getD 0 0, COLS.getD (n + 1) 0)).2 ∈ pSet := by
        split_ifs <;>
          · show COLS.getD (n + 1) 0 ∈ pSet
            exact cols_mem_pSet (n + 1)
      obtain ⟨aL, aA, aE, aU, aF, aET, aUT, aFT, aSC, aTR⟩ :=
        acceptSwap_c4inv (colPerms genC4 (n + 1) s).layout (colPerms genC4 (n + 1) s).cache
          _ hpr1 hpr2 hL hA hE hU hF hET hUT hFT
      exact ⟨⟨aL, aA, aE, aU, aF, aET, aUT, aFT, aSC.trans hSC, aTR.trans hTR⟩,
        h2b.trans hsb, h2bs⟩

theorem swapIndexes_c (l : FastLayout) (hl : l.matrix.length = 30) (p : ℕ) (hp : p < 30) :
    (swapIndexes l).c p
      = l.c (if p < 10 then p + 20 else if p < 20 then p else p - 20) := by
  unfold swapIndexes FastLayout.c
  dsimp only
  have hA : ((l.matrix.drop 20).take 10).length = 10 := by simp [hl]
  have hB : ((l.matrix.drop 10).take 10).length = 10 := by simp [hl]
  have hAB : ((l.matrix.drop 20).take 10 ++ (l.matrix.drop 10).take 10).length = 20 := by
    rw [List.length_append, hA, hB]
  rw [List.getD_eq_getElem?_getD, List.getD_eq_getElem?_getD]
  by_cases h10 : p < 10
  · rw [if_pos h10]
    have e1 : ((l.matrix.drop 20).take 10 ++ (l.matrix.drop 10).take 10
          ++ l.matrix.take 10)[p]?
        = ((l.matrix.drop 20).take 10 ++ (l.matrix.drop 10).take 10)[p]? :=
      List.getElem?_append_left (by rw [hAB]; omega)
    have e2 : ((l.matrix.drop 20).take 10 ++ (l.matrix.drop 10).take 10)[p]?
        = ((l.matrix.drop 20).take 10)[p]? :=
      List.getElem?_append_left (by rw [hA]; omega)
    have e3 : ((l.matrix.drop 20).take 10)[p]? = (l.matrix.drop 20)[p]? :=
      List.getElem?_take_of_lt h10
    have e4 : (l.matrix.drop 20)[p]? = l.matrix[20 + p]? := List.getElem?_drop _ _ _
    have e5 : 20 + p = p + 20 := Nat.add_comm 20 p
    rw [e1, e2, e3, e4, e5]
  · by_cases h20 : p < 20
    · rw [if_neg h10, if_pos h20]
      have e1 : ((l.matrix.drop 20).take 10 ++ (l.matrix.drop 10).take 10
            ++ l.matrix.take 10)[p]?
          = ((l.matrix.drop 20).take 10 ++ (l.matrix.drop 10).take 10)[p]? :=
        List.getElem?_append_left (by rw [hAB]; omega)
      have e2 : ((l.matrix.drop 20).take 10 ++ (l.matrix.drop 10).take 10)[p]?
          = ((l.matrix.drop 10).take 10)[p - ((l.matrix.drop 20).take 10).length]? :=
        List.getElem?_append_right (by rw [hA]; omega)
      rw [e1, e2, hA]
      have e3 : ((l.matrix.drop 10).take 10)[p - 10]? = (l.matrix.drop 10)[p - 10]? :=
        List.getElem?_take_of_lt (by omega)
      have e4 : (l.matrix.drop 10)[p - 10]? = l.matrix[10 + (p - 10)]? :=
        List.getElem?_drop _ _ _
      have e5 : 10 + (p - 10) = p := by omega
      rw [e3, e4, e5]
    · rw [if_neg h10, if_neg h20]
      have e1 : ((l.matrix.drop 20).take 10 ++ (l.matrix.drop 10).take 10
            ++ l.matrix.take 10)[p]?
          = (l.matrix.take 10)[p - ((l.matrix.drop 20).take 10
              ++ (l.matrix.drop 10).take 10).length]? :=
        List.getElem?_append_right (by rw [hAB]; omega)
      rw [e1, hAB]
      have e3 : (l.matrix.take 10)[p - 20]? = l.matrix[p - 20]? :=
        List.getElem?_take_of_lt (by omega)
      rw [e3]

theorem swapIndexes_c4 (l : FastLayout) (hl : l.matrix.length = 30)
    (hav : ∀ p ∈ pSet, trigramContains (l.c p) (13, 4, 16) = false) :
    (swapIndexes l).matrix.length = 30
      ∧ ∀ p ∈ pSet, trigramContains ((swapIndexes l).c p) (13, 4, 16) = false := by
  constructor
  · unfold swapIndexes
    dsimp only
    simp [hl]
  · intro p hp
    rw [swapIndexes_c l hl p (pSet_lt p hp)]
    have hp' : p ∈ ([0, 1, 2, 7, 8, 9, 20, 21, 22, 27, 28, 29] : List ℕ) := hp
    have hm : (if p < 10 then p + 20 else if p < 20 then p else p - 20) ∈ pSet := by
      fin_cases hp' <;> decide
    exact hav _ hm

theorem optLoop_succ (g : LayoutGeneration) (ps : List (ℕ × ℕ)) (fi n : ℕ)
    (l : FastLayout) (cache : LayoutCache) (wcs os : ℚ) :
    optLoop g ps fi (n + 1) l cache wcs os
      = if wcs < os then
          ((optLoop g ps fi n
              (optimizeCols g (optimizeCachedFuel g ps fi l cache).1.1
                (optimizeCachedFuel g ps fi l cache).1.2.1
                (some (optimizeCachedFuel g ps fi l cache).1.2.2)).1
              (optimizeCols g (optimizeCachedFuel g ps fi l cache).1.1
                (optimizeCachedFuel g ps fi l cache).1.2.1
                (some (optimizeCachedFuel g ps fi l cache).1.2.2)).2.1
              (optimizeCols g (optimizeCachedFuel g ps fi l cache).1.1
                (optimizeCachedFuel g ps fi l cache).1.2.1
                (some (optimizeCachedFuel g ps fi l cache).1.2.2)).2.2
              (optimizeCachedFuel g ps fi l cache).1.2.2).1,
            (optimizeCachedFuel g ps fi l cache).2
              && (optLoop g ps fi n
                (optimizeCols g (optimizeCachedFuel g ps fi l cache).1.1
                  (optimizeCachedFuel g ps fi l cache).1.2.1
                  (some (optimizeCachedFuel g ps fi l cache).1.2.2)).1
                (optimizeCols g (optimizeCachedFuel g ps fi l cache).1.1
                  (optimizeCachedFuel g ps fi l cache).1.2.1
                  (some (optimizeCachedFuel g ps fi l cache).1.2.2)).2.1
                (optimizeCols g (optimizeCachedFuel g ps fi l cache).1.1
                  (optimizeCachedFuel g ps fi l cache).1.2.1
                  (some (optimizeCachedFuel g ps fi l cache).1.2.2)).2.2
                (optimizeCachedFuel g ps fi l cache).1.2.2).2)
        else (l, true) := by
  simp only [optLoop]

theorem optimizeCols_eq3 (g : LayoutGeneration) (l : FastLayout) (cache : LayoutCache) :
    optimizeCols g l cache (some 3)
      = ((colPerms g 6 ⟨swapIndexes (colPerms g 6 ⟨l, cache, l, 3⟩).layout,
            (colPerms g 6 ⟨l, cache, l, 3⟩).cache,
            (colPerms g 6 ⟨l, cache, l, 3⟩).best,
            (colPerms g 6 ⟨l, cache, l, 3⟩).bestScore⟩).best,
          (colPerms g 6 ⟨swapIndexes (colPerms g 6 ⟨l, cache, l, 3⟩).layout,
            (colPerms g 6 ⟨l, cache, l, 3⟩).cache,
            (colPerms g 6 ⟨l, cache, l, 3⟩).best,
            (colPerms g 6 ⟨l, cache, l, 3⟩).bestScore⟩).cache,
          (colPerms g 6 ⟨swapIndexes (colPerms g 6 ⟨l, cache, l, 3⟩).layout,
            (colPerms g 6 ⟨l, cache, l, 3⟩).cache,
            (colPerms g 6 ⟨l, cache, l, 3⟩).best,
            (colPerms g 6 ⟨l, cache, l, 3⟩).bestScore⟩).bestScore) := by
  simp only [optimizeCols, Option.getD_some]

theorem colPerms_c4inv_comp (k : ℕ) (L : FastLayout) (C : LayoutCache) (B : FastLayout)
    (S : ℚ) (hinv : c4ColInv ⟨L, C, B, S⟩) (hS : S = 3) :
    c4ColInv (colPerms genC4 k ⟨L, C, B, S⟩)
      ∧ (colPerms genC4 k ⟨L, C, B, S⟩).best = B
      ∧ (colPerms genC4 k ⟨L, C, B, S⟩).bestScore = 3 := by
  subst hS
  have H := colPerms_c4inv k ⟨L, C, B, 3⟩ hinv rfl
  exact ⟨H.1, H.2.1.trans rfl, H.2.2⟩

theorem colState_pair_components (Z : ColPermState) (r2 : FastLayout × LayoutCache × ℚ)
    (l : FastLayout) (check : (Z.best, Z.cache, Z.bestScore) = r2)
    (h1 : Z.best = l) (h3 : Z.bestScore = 3) : r2.1 = l ∧ r2.2.2 = 3 := by
  rw [← check]
  exact ⟨h1, h3⟩

theorem optimizeCols_c4 (l : FastLayout) (c : LayoutCache)
    (hinv : c4ColInv ⟨l, c, l, 3⟩) :
    ∀ r2 : FastLayout × LayoutCache × ℚ, optimizeCols genC4 l c (some 3) = r2 →
      r2.1 = l ∧ r2.2.2 = 3 := by
  intro r2 hr2
  rw [optimizeCols_eq3] at hr2
  have H := colPerms_c4inv_comp 6 l c l 3 hinv rfl
  generalize hY : colPerms genC4 6 (⟨l, c, l, 3⟩ : ColPermState) = Y at H hr2
  have hk := swapIndexes_c4 Y.layout H.1.1 H.1.2.1
  have hinv2 : c4ColInv ⟨swapIndexes Y.layout, Y.cache, Y.best, Y.bestScore⟩ :=
    ⟨hk.1, hk.2, H.1.2.2.1, H.1.2.2.2.1, H.1.2.2.2.2.1, H.1.2.2.2.2.2.1,
      H.1.2.2.2.2.2.2.1, H.1.2.2.2.2.2.2.2.1, H.1.2.2.2.2.2.2.2.2.1,
      H.1.2.2.2.2.2.2.2.2.2⟩
  have H2 := colPerms_c4inv_comp 6 (swapIndexes Y.layout) Y.cache Y.best Y.bestScore
    hinv2 H.2.2
  generalize hZ : colPerms genC4 6
    (⟨swapIndexes Y.layout, Y.cache, Y.best, Y.bestScore⟩ : ColPermState) = Z at H2 hr2
  exact colState_pair_components Z r2 l hr2 (H2.2.1.trans H.2.1) H2.2.2

theorem bestSwapCached_singleton (g : LayoutGeneration) (l : FastLayout)
    (cache : LayoutCache) (cbs : ℚ) (s : ℕ × ℕ) :
    bestSwapCached g l cache (some cbs) [s]
      = if cbs < scoreSwapCached g l s cache
        then (some s, scoreSwapCached g l s cache) else (none, cbs) := by
  unfold bestSwapCached
  simp only [Option.getD_some, List.foldl_cons, List.foldl_nil]

theorem optStep_singleton_accept (g : LayoutGeneration) (s : ℕ × ℕ) (l : FastLayout)
    (cache : LayoutCache) (cbs : ℚ) (h : cbs < scoreSwapCached g l s cache) :
    optStep g [s] (l, cache, cbs)
      = some ((acceptSwap g l s cache).1, (acceptSwap g l s cache).2,
          scoreSwapCached g l s cache) := by
  unfold optStep
  dsimp only
  rw [bestSwapCached_singleton, if_pos h]

theorem optStep_singleton_reject (g : LayoutGeneration) (s : ℕ × ℕ) (l : FastLayout)
    (cache : LayoutCache) (cbs : ℚ) (h : ¬ cbs < scoreSwapCached g l s cache) :
    optStep g [s] (l, cache, cbs) = none := by
  unfold optStep
  dsimp only
  rw [bestSwapCached_singleton, if_neg h]

theorem optRun_succ_step (g : LayoutGeneration) (ps : List (ℕ × ℕ)) (n : ℕ)
    (st st2 : FastLayout × LayoutCache × ℚ) (h : optStep g ps st = some st2) :
    optRun g ps (n + 1) st = optRun g ps n st2 := by
  simp only [optRun, h]

theorem optRun_succ_done (g : LayoutGeneration) (ps : List (ℕ × ℕ)) (n : ℕ)
    (st : FastLayout × LayoutCache × ℚ) (h : optStep g ps st = none) :
    optRun g ps (n + 1) st = (st, true) := by
  simp only [optRun, h]

theorem fspeedSliceOk_c4 : fspeedSliceOk genC4 := by
  unfold fspeedSliceOk
  decide

/-- Claim C4, refutation of the score clauses as stated: on the C4 model
the optimize run accepts the swap of positions 13 and 15 because the
truncated trigram cache rates it an improvement, and returns having
completed its loops, yet the full score of the returned layout is
strictly below the full score of the input layout. -/
theorem c4_counterexample :
    c4run.2 = true ∧ score genC4 c4run.1 < score genC4 layoutId := by
  have hmin : f64Min < f64Min / 2 := by unfold f64Min; norm_num
  have hacc1 : acceptSwap genC4 layoutId (13, 15) (canonCache genC4 layoutId layoutId)
      = (swapPairNoBounds layoutId (13, 15),
          canonCache genC4 layoutId (swapPairNoBounds layoutId (13, 15))) :=
    acceptSwap_canon genC4 layoutId layoutId (13, 15) trigCovered_c4 fspeedSliceOk_c4
      (by norm_num) (by norm_num) (by decide) (by decide)
  have hacc2 : acceptSwap genC4 (swapPairNoBounds layoutId (13, 15)) (13, 15)
      (canonCache genC4 layoutId (swapPairNoBounds layoutId (13, 15)))
      = (swapPairNoBounds (swapPairNoBounds layoutId (13, 15)) (13, 15),
          canonCache genC4 layoutId
            (swapPairNoBounds (swapPairNoBounds layoutId (13, 15)) (13, 15))) :=
    acceptSwap_canon genC4 layoutId (swapPairNoBounds layoutId (13, 15)) (13, 15)
      trigCovered_c4 fspeedSliceOk_c4 (by norm_num) (by norm_num) (by decide) (by decide)
  have hsc1 : scoreSwapCached genC4 layoutId (13, 15)
      (canonCache genC4 layoutId layoutId) = 3 := by
    rw [scoreSwap_eq_accept, hacc1]
    with_unfolding_all decide
  have hsc2 : scoreSwapCached genC4 (swapPairNoBounds layoutId (13, 15)) (13, 15)
      (canonCache genC4 layoutId (swapPairNoBounds layoutId (13, 15))) = 2 := by
    rw [scoreSwap_eq_accept, hacc2]
    with_unfolding_all decide
  have hlt1 : f64Min / 2 < scoreSwapCached genC4 layoutId (13, 15)
      (canonCache genC4 layoutId layoutId) := by
    rw [hsc1]
    unfold f64Min
    norm_num
  have hstep1 : optStep genC4 [(13, 15)]
      (layoutId, canonCache genC4 layoutId layoutId, f64Min / 2)
      = some (swapPairNoBounds layoutId (13, 15),
          canonCache genC4 layoutId (swapPairNoBounds layoutId (13, 15)), 3) := by
    rw [optStep_singleton_accept genC4 (13, 15) layoutId
      (canonCache genC4 layoutId layoutId) (f64Min / 2) hlt1]
    rw [hacc1]
    dsimp only
    rw [hsc1]
  have hstep2 : optStep genC4 [(13, 15)]
      (swapPairNoBounds layoutId (13, 15),
        canonCache genC4 layoutId (swapPairNoBounds layoutId (13, 15)), 3) = none := by
    apply optStep_singleton_reject
    rw [hsc2]
    norm_num
  have hr1 : optimizeCachedFuel genC4 [(13, 15)] 10 layoutId (initCache genC4 layoutId)
      = ((swapPairNoBounds layoutId (13, 15),
          canonCache genC4 layoutId (swapPairNoBounds layoutId (13, 15)), 3), true) := by
    unfold optimizeCachedFuel
    rw [initCache_eq_canon]
    rw [show (10 : ℕ) = 9 + 1 from rfl]
    rw [optRun_succ_step _ _ _ _ _ hstep1]
    rw [show (9 : ℕ) = 8 + 1 from rfl]
    rw [optRun_succ_done _ _ _ _ hstep2]
  have hinv0 : c4ColInv ⟨swapPairNoBounds layoutId (13, 15),
      canonCache genC4 layoutId (swapPairNoBounds layoutId (13, 15)),
      swapPairNoBounds layoutId (13, 15), 3⟩ := by
    refine ⟨?_, ?_, ?_, ?_, ?_, ?_, ?_, ?_, ?_, ?_⟩
    · with_unfolding_all decide
    · with_unfolding_all decide
    · exact getD_zero_of_all_zero _ (by with_unfolding_all decide)
    · exact getD_zero_of_all_zero _ (by with_unfolding_all decide)
    · exact getD_zero_of_all_zero _ (by with_unfolding_all decide)
    · with_unfolding_all decide
    · with_unfolding_all decide
    · with_unfolding_all decide
    · with_unfolding_all decide
    · with_unfolding_all decide
  have hoc := optimizeCols_c4 (swapPairNoBounds layoutId (13, 15))
    (canonCache genC4 layoutId (swapPairNoBounds layoutId (13, 15))) hinv0
    (optimizeCols genC4 (swapPairNoBounds layoutId (13, 15))
      (canonCache genC4 layoutId (swapPairNoBounds layoutId (13, 15))) (some 3)) rfl
  have hrun : c4run = (swapPairNoBounds layoutId (13, 15), true) := by
    show optLoop genC4 [(13, 15)] 10 (1 + 1) layoutId (initCache genC4 layoutId)
        f64Min (f64Min / 2) = (swapPairNoBounds layoutId (13, 15), true)
    rw [optLoop_succ, if_pos hmin, hr1]
    dsimp only
    rw [hoc.1, hoc.2]
    rw [show (1 : ℕ) = 0 + 1 from rfl]
    rw [optLoop_succ, if_neg (lt_irrefl (3 : ℚ))]
    rfl
  constructor
  · rw [hrun]
  · rw [hrun]
    with_unfolding_all decide

theorem optLoop_one (g : LayoutGeneration) (ps : List (ℕ × ℕ)) (fi : ℕ)
    (l : FastLayout) (cache : LayoutCache) (wcs os : ℚ) (h : ¬ wcs < os) :
    optLoop g ps fi 1 l cache wcs os = (l, true) := by
  show optLoop g ps fi (0 + 1) l cache wcs os = (l, true)
  rw [optLoop_succ, if_neg h]

theorem foldl_bestScore_mono (f : ColPermState → ℕ → ColPermState)
    (hf : ∀ s i, s.bestScore ≤ (f s i).bestScore) :
    ∀ (xs : List ℕ) (s : ColPermState), s.bestScore ≤ (xs.foldl f s).bestScore := by
  intro xs
  induction xs with
  | nil => intro s; exact le_refl _
  | cons a t ih => intro s; exact le_trans (hf s a) (ih (f s a))

theorem colPerms_bestScore_mono (g : LayoutGeneration) :
    ∀ (k : ℕ) (st : ColPermState), st.bestScore ≤ (colPerms g k st).bestScore := by
  intro k
  induction k using Nat.strong_induction_on with
  | _ k ih =>
    rcases k with _ | k
    · intro st; exact le_refl _
    rcases k with _ | n
    · intro st
      simp only [colPerms]
      split_ifs with h
      · exact le_of_lt h
      · exact le_refl _
    · intro st
      simp only [colPerms]
      apply foldl_bestScore_mono
      intro s i
      dsimp only
      exact ih (n + 1) (by omega) s

theorem optimizeCols_eqGen (g : LayoutGeneration) (l : FastLayout) (cache : LayoutCache)
    (so : Option ℚ) :
    optimizeCols g l cache so
      = ((colPerms g 6 ⟨swapIndexes
              (colPerms g 6 ⟨l, cache, l, so.getD cache.totalScore⟩).layout,
            (colPerms g 6 ⟨l, cache, l, so.getD cache.totalScore⟩).cache,
            (colPerms g 6 ⟨l, cache, l, so.getD cache.totalScore⟩).best,
            (colPerms g 6 ⟨l, cache, l, so.getD cache.totalScore⟩).bestScore⟩).best,
          (colPerms g 6 ⟨swapIndexes
              (colPerms g 6 ⟨l, cache, l, so.getD cache.totalScore⟩).layout,
            (colPerms g 6 ⟨l, cache, l, so.getD cache.totalScore⟩).cache,
            (colPerms g 6 ⟨l, cache, l, so.getD cache.totalScore⟩).best,
            (colPerms g 6 ⟨l, cache, l, so.getD cache.totalScore⟩).bestScore⟩).cache,
          (colPerms g 6 ⟨swapIndexes
              (colPerms g 6 ⟨l, cache, l, so.getD cache.totalScore⟩).layout,
            (colPerms g 6 ⟨l, cache, l, so.getD cache.totalScore⟩).cache,
            (colPerms g 6 ⟨l, cache, l, so.getD cache.totalScore⟩).best,
            (colPerms g 6 ⟨l, cache, l, so.getD cache.totalScore⟩).bestScore⟩).bestScore) := by
  simp only [optimizeCols]

theorem pair_third_ge (Z : ColPermState) (r2 : FastLayout × LayoutCache × ℚ) (s0 : ℚ)
    (check : (Z.best, Z.cache, Z.bestScore) = r2) (h : s0 ≤ Z.bestScore) : s0 ≤ r2.2.2 := by
  rw [← check]
  exact h

theorem colPerms_bestScore_mono_comp (g : LayoutGeneration) (k : ℕ) (L : FastLayout)
    (C : LayoutCache) (B : FastLayout) (S : ℚ) :
    S ≤ (colPerms g k ⟨L, C, B, S⟩).bestScore :=
  colPerms_bestScore_mono g k ⟨L, C, B, S⟩

theorem optimizeCols_score_ge (g : LayoutGeneration) (l : FastLayout) (c : LayoutCache)
    (s0 : ℚ) : s0 ≤ (optimizeCols g l c (some s0)).2.2 := by
  have heq := optimizeCols_eqGen g l c (some s0)
  simp only [Option.getD_some] at heq
  have mono1 := colPerms_bestScore_mono_comp g 6 l c l s0
  generalize hY : colPerms g 6 (⟨l, c, l, s0⟩ : ColPermState) = Y at heq mono1
  have mono2 := colPerms_bestScore_mono_comp g 6 (swapIndexes Y.layout) Y.cache Y.best
    Y.bestScore
  generalize hZ : colPerms g 6
    (⟨swapIndexes Y.layout, Y.cache, Y.best, Y.bestScore⟩ : ColPermState) = Z at heq mono2
  exact pair_third_ge Z (optimizeCols g l c (some s0)) s0 heq.symm (mono1.trans mono2)

theorem bestSwap_foldl (g : LayoutGeneration) (l : FastLayout) (cache : LayoutCache) :
    ∀ (ps : List (ℕ × ℕ)) (acc : Option (ℕ × ℕ) × ℚ),
      acc.2 ≤ (ps.foldl (fun acc s =>
          let sc := scoreSwapCached g l s cache
          if acc.2 < sc then (some s, sc) else acc) acc).2
        ∧ ((ps.foldl (fun acc s =>
            let sc := scoreSwapCached g l s cache
            if acc.2 < sc then (some s, sc) else acc) acc) = acc
          ∨ ∃ s ∈ ps, (ps.foldl (fun acc s =>
              let sc := scoreSwapCached g l s cache
              if acc.2 < sc then (some s, sc) else acc) acc)
                = (some s, scoreSwapCached g l s cache)
            ∧ acc.2 < scoreSwapCached g l s cache) := by
  intro ps
  induction ps with
  | nil => intro acc; exact ⟨le_refl _, Or.inl rfl⟩
  | cons a t ih =>
    intro acc
    simp only [List.foldl_cons]
    by_cases h : acc.2 < scoreSwapCached g l a cache
    · rw [if_pos h]
      obtain ⟨ihle, ihor⟩ := ih (some a, scoreSwapCached g l a cache)
      constructor
      · exact le_trans (le_of_lt h) ihle
      · rcases ihor with heq | ⟨s, hmem, heq, hlt⟩
        · exact Or.inr ⟨a, List.mem_cons_self a t, heq, h⟩
        · exact Or.inr ⟨s, List.mem_cons_of_mem a hmem, heq, lt_trans h hlt⟩
    · rw [if_neg h]
      obtain ⟨ihle, ihor⟩ := ih acc
      refine ⟨ihle, ?_⟩
      rcases ihor with heq | ⟨s, hmem, heq, hlt⟩
      · exact Or.inl heq
      · exact Or.inr ⟨s, List.mem_cons_of_mem a hmem, heq, hlt⟩

theorem bestSwapCached_some (g : LayoutGeneration) (l : FastLayout) (cache : LayoutCache)
    (cbs : ℚ) (ps : List (ℕ × ℕ)) (s : ℕ × ℕ) (ns : ℚ)
    (h : bestSwapCached g l cache (some cbs) ps = (some s, ns)) :
    s ∈ ps ∧ ns = scoreSwapCached g l s cache ∧ cbs < ns := by
  unfold bestSwapCached at h
  simp only [Option.getD_some] at h
  rcases (bestSwap_foldl g l cache ps (none, cbs)).2 with heq | ⟨s2, hmem, heq, hlt⟩
  · rw [heq] at h
    exact Option.noConfusion (congrArg Prod.fst h)
  · rw [heq] at h
    have hs : s2 = s := Option.some.inj (congrArg Prod.fst h)
    have hn : scoreSwapCached g l s2 cache = ns := congrArg Prod.snd h
    cases hs
    exact ⟨hmem, hn.symm, hn ▸ hlt⟩

theorem c_mem_matrix (l : FastLayout) (i : ℕ) (h : i < l.matrix.length) :
    l.c i ∈ l.matrix := by
  unfold FastLayout.c
  rw [List.getD_eq_getElem?_getD, List.getElem?_eq_getElem h]
  simp only [Option.getD_some]
  exact List.getElem_mem h

theorem layoutBounded_refl (l0 : FastLayout) (h : l0.matrix.length = 30) :
    layoutBounded l0 l0 := ⟨h, fun _ hv => hv, rfl, fun _ hv => Or.inl hv⟩

theorem layoutBounded_swap (l0 l : FastLayout) (s : ℕ × ℕ) (h1 : s.1 < 30) (h2 : s.2 < 30)
    (hb : layoutBounded l0 l) : layoutBounded l0 (swapPairNoBounds l s) := by
  obtain ⟨hlen, hmat, hclen, hci⟩ := hb
  refine ⟨?_, ?_, ?_, ?_⟩
  · rw [swap_matrix_length]; exact hlen
  · intro v hv
    unfold swapPairNoBounds at hv
    dsimp only at hv
    rcases List.mem_or_eq_of_mem_set hv with hv2 | rfl
    · rcases List.mem_or_eq_of_mem_set hv2 with hv3 | rfl
      · exact hmat v hv3
      · exact hmat _ (c_mem_matrix l s.2 (by omega))
    · exact hmat _ (c_mem_matrix l s.1 (by omega))
  · rw [swap_ci_length]; exact hclen
  · intro v hv
    unfold swapPairNoBounds at hv
    dsimp only at hv
    rcases List.mem_or_eq_of_mem_set hv with hv2 | rfl
    · rcases List.mem_or_eq_of_mem_set hv2 with hv3 | rfl
      · exact hci v hv3
      · exact Or.inr h2
    · exact Or.inr h1

theorem finite_bounded_lists (A : List ℕ) :
    ∀ n : ℕ, Set.Finite {xs : List ℕ | xs.length = n ∧ ∀ v ∈ xs, v ∈ A} := by
  intro n
  induction n with
  | zero =>
    apply Set.Finite.subset (Set.finite_singleton ([] : List ℕ))
    rintro xs ⟨hlen, -⟩
    rw [List.length_eq_zero] at hlen
    simp [hlen]
  | succ n ih =>
    apply Set.Finite.subset (Set.Finite.image2 List.cons A.finite_toSet ih)
    rintro xs ⟨hlen, hv⟩
    rcases xs with _ | ⟨a, t⟩
    · simp at hlen
    · refine Set.mem_image2_of_mem ?_ ?_
      · exact hv a (List.mem_cons_self a t)
      · refine ⟨?_, ?_⟩
        · simpa using hlen
        · intro v hv2; exact hv v (List.mem_cons_of_mem a hv2)

theorem finite_layoutBounded (l0 : FastLayout) :
    Set.Finite {l : FastLayout | layoutBounded l0 l} := by
  apply Set.Finite.subset (Set.Finite.image2 (fun m c => FastLayout.mk m c)
    (finite_bounded_lists l0.matrix 30)
    (finite_bounded_lists (l0.charIndices ++ List.range 30) l0.charIndices.length))
  rintro l ⟨hlen, hmat, hclen, hci⟩
  have hl : l = FastLayout.mk l.matrix l.charIndices := rfl
  rw [hl]
  refine Set.mem_image2_of_mem ⟨hlen, hmat⟩ ⟨hclen, ?_⟩
  intro v hv
  rcases hci v hv with h | h
  · exact List.mem_append_left _ h
  · exact List.mem_append_right _ (List.mem_range.mpr h)

theorem optStep_inv (g : LayoutGeneration) (l0 : FastLayout) (possible : List (ℕ × ℕ))
    (hcov : trigCovered g) (hsl : fspeedSliceOk g)
    (hps : ∀ s ∈ possible, s.1 < 30 ∧ s.2 < 30 ∧ s.1 ≠ s.2)
    (st st2 : FastLayout × LayoutCache × ℚ)
    (hinv : optInv g l0 st)
    (hstep : optStep g possible st = some st2) :
    optInv g l0 st2 ∧ st.2.2 < st2.2.2
      ∧ st2.2.2 = (canonCache g l0 st2.1).totalScore := by
  obtain ⟨hbd, hc⟩ := hinv
  unfold optStep at hstep
  rcases hbs : bestSwapCached g st.1 st.2.1 (some st.2.2) possible with ⟨o, ns⟩
  rw [hbs] at hstep
  rcases o with _ | s
  · dsimp only at hstep
    exact Option.noConfusion hstep
  · dsimp only at hstep
    obtain ⟨hm, hns, hlt⟩ := bestSwapCached_some g st.1 st.2.1 st.2.2 possible s ns hbs
    obtain ⟨hs1, hs2, hsne⟩ := hps s hm
    have hacc := acceptSwap_canon g l0 st.1 s hcov hsl hs1 hs2 hsne hbd.1
    rw [hc, hacc] at hstep
    dsimp only at hstep
    have hst2 : st2 = (swapPairNoBounds st.1 s,
        canonCache g l0 (swapPairNoBounds st.1 s), ns) := (Option.some.inj hstep).symm
    subst hst2
    refine ⟨⟨layoutBounded_swap l0 st.1 s hs1 hs2 ⟨hbd.1, hbd.2.1, hbd.2.2.1, hbd.2.2.2⟩,
      rfl⟩, hlt, ?_⟩
    rw [hns, hc, scoreSwap_eq_accept, hacc]

theorem optRun_true (g : LayoutGeneration) (l0 : FastLayout) (possible : List (ℕ × ℕ))
    (hcov : trigCovered g) (hsl : fspeedSliceOk g)
    (hps : ∀ s ∈ possible, s.1 < 30 ∧ s.2 < 30 ∧ s.1 ≠ s.2)
    (V : Finset ℚ)
    (hV : ∀ l : FastLayout, layoutBounded l0 l → (canonCache g l0 l).totalScore ∈ V) :
    ∀ (n : ℕ) (st : FastLayout × LayoutCache × ℚ), optInv g l0 st →
      (V.filter (fun v => st.2.2 < v)).card ≤ n →
      (optRun g possible (n + 1) st).2 = true := by
  intro n
  induction n with
  | zero =>
    intro st hinv hcard
    rcases hstep : optStep g possible st with _ | st2
    · simp only [optRun, hstep]
    · exfalso
      obtain ⟨hinv2, hlt, hscore⟩ := optStep_inv g l0 possible hcov hsl hps st st2 hinv hstep
      have hmem : st2.2.2 ∈ V.filter (fun v => st.2.2 < v) :=
        Finset.mem_filter.mpr ⟨hscore ▸ hV st2.1 hinv2.1, hlt⟩
      have hpos := Finset.card_pos.mpr ⟨_, hmem⟩
      omega
  | succ n ih =>
    intro st hinv hcard
    rcases hstep : optStep g possible st with _ | st2
    · simp only [optRun, hstep]
    · have hred : optRun g possible (n + 1 + 1) st = optRun g possible (n + 1) st2 := by
        simp only [optRun, hstep]
      rw [hred]
      obtain ⟨hinv2, hlt, hscore⟩ := optStep_inv g l0 possible hcov hsl hps st st2 hinv hstep
      apply ih st2 hinv2
      have hsub : V.filter (fun v => st2.2.2 < v) ⊆ V.filter (fun v => st.2.2 < v) := by
        intro v hv
        obtain ⟨hvV, hvlt⟩ := Finset.mem_filter.mp hv
        exact Finset.mem_filter.mpr ⟨hvV, lt_trans hlt hvlt⟩
      have hmem1 : st2.2.2 ∈ V.filter (fun v => st.2.2 < v) :=
        Finset.mem_filter.mpr ⟨hscore ▸ hV st2.1 hinv2.1, hlt⟩
      have hmem2 : st2.2.2 ∉ V.filter (fun v => st2.2.2 < v) := by
        intro hx
        exact absurd (Finset.mem_filter.mp hx).2 (lt_irrefl _)
      have hss := Finset.card_lt_card
        ((Finset.ssubset_iff_of_subset hsub).mpr ⟨st2.2.2, hmem1, hmem2⟩)
      omega

/-- Claim C4 (amended to the part the code satisfies): for every
30-key initial layout, every finite candidate swap list of in-range
distinct position pairs and a language model satisfying the data
invariants, optimize terminates after finitely many steps: some finite
inner fuel lets every loop of the fuelled optimize reach its exit
condition, with the outer loop running exactly once because the column
pass never returns a best score below the score it was entered with.
The original claim's monotonicity clauses are refuted by
c4_counterexample: the returned layout's full score can be strictly
below the input layout's. -/
theorem c4_optimize_terminates (g : LayoutGeneration) (possible : List (ℕ × ℕ))
    (l0 : FastLayout) (hcov : trigCovered g) (hsl : fspeedSliceOk g)
    (hps : ∀ s ∈ possible, s.1 < 30 ∧ s.2 < 30 ∧ s.1 ≠ s.2)
    (hl : l0.matrix.length = 30) :
    ∃ fuelInner : ℕ, (optimizeFuel g possible l0 fuelInner 2).2 = true := by
  classical
  have hmin : f64Min < f64Min / 2 := by unfold f64Min; norm_num
  refine ⟨((finite_layoutBounded l0).toFinset.image
      (fun l => (canonCache g l0 l).totalScore)).card + 1, ?_⟩
  have hV : ∀ l : FastLayout, layoutBounded l0 l →
      (canonCache g l0 l).totalScore ∈ (finite_layoutBounded l0).toFinset.image
        (fun l => (canonCache g l0 l).totalScore) := by
    intro l hb
    exact Finset.mem_image.mpr ⟨l, (Set.Finite.mem_toFinset _).mpr hb, rfl⟩
  have hflag : (optimizeCachedFuel g possible
      (((finite_layoutBounded l0).toFinset.image
        (fun l => (canonCache g l0 l).totalScore)).card + 1) l0 (initCache g l0)).2
        = true := by
    unfold optimizeCachedFuel
    exact optRun_true g l0 possible hcov hsl hps _ hV _
      (l0, initCache g l0, f64Min / 2)
      ⟨layoutBounded_refl l0 hl, initCache_eq_canon g l0⟩
      (Finset.card_filter_le _ _)
  show (optLoop g possible (((finite_layoutBounded l0).toFinset.image
      (fun l => (canonCache g l0 l).totalScore)).card + 1) (1 + 1) l0
      (initCache g l0) f64Min (f64Min / 2)).2 = true
  rw [optLoop_succ, if_pos hmin]
  dsimp only
  have hge := optimizeCols_score_ge g
    (optimizeCachedFuel g possible (((finite_layoutBounded l0).toFinset.image
      (fun l => (canonCache g l0 l).totalScore)).card + 1) l0 (initCache g l0)).1.1
    (optimizeCachedFuel g possible (((finite_layoutBounded l0).toFinset.image
      (fun l => (canonCache g l0 l).totalScore)).card + 1) l0 (initCache g l0)).1.2.1
    (optimizeCachedFuel g possible (((finite_layoutBounded l0).toFinset.image
      (fun l => (canonCache g l0 l).totalScore)).card + 1) l0 (initCache g l0)).1.2.2
  rw [optLoop_one _ _ _ _ _ _ _ (not_lt.mpr hge)]
  rw [hflag]
  rfl

/-- Witness for c4_optimize_terminates on the witness model genW with
the single candidate swap of positions 0 and 1 from the identity
layout. -/
theorem c4_witness :
    (trigCovered genW ∧ fspeedSliceOk genW
        ∧ (∀ s ∈ ([(0, 1)] : List (ℕ × ℕ)), s.1 < 30 ∧ s.2 < 30 ∧ s.1 ≠ s.2)
        ∧ layoutId.matrix.length = 30)
      ∧ ∃ fuelInner : ℕ, (optimizeFuel genW [(0, 1)] layoutId fuelInner 2).2 = true :=
  ⟨⟨by unfold trigCovered; decide, by unfold fspeedSliceOk; decide, by decide, by decide⟩,
    c4_optimize_terminates genW [(0, 1)] layoutId (by unfold trigCovered; decide)
      (by unfold fspeedSliceOk; decide) (by decide) (by decide)⟩
